import Mathlib

/-!
Shallow embedding of the ADL compiler's name-resolution and annotation-binding
core (src/rust/compiler/src/processing/resolver.rs and annotations.rs).

Hash maps of the source are modelled as association lists.  Maps that the
source builds by repeated insertion (annotation maps, the expanded-imports
map, the resolver's module map) use `insertS`, an order-canonicalising insert
over a linear order on keys, so that map equality is list equality.  Maps that
are only looked up or traversed in place (a module's `decls`) stay in list
order, a determinisation of the source's unspecified hash-iteration order.
-/

namespace Adl

abbrev Ident := String
abbrev ModuleName := String

/-- The type `adlast::ScopedName`: a `(module_name, name)` pair; an empty
`module_name` means unqualified. -/
structure ScopedName where
  module_name : ModuleName
  name : Ident
deriving DecidableEq, Repr

/-- JSON values (`serde_json::Value`); carried opaquely by this layer. -/
inductive Json where
  | null : Json
  | bool (b : Bool) : Json
  | num (n : Int) : Json
  | str (s : String) : Json
  | arr (elems : List Json) : Json
  | obj (fields : List (String × Json)) : Json

/-- Strict charwise comparison of character lists, by code point; a
kernel-computable strict total order used to canonicalise association-list
maps. -/
def charListLt : List Char → List Char → Bool
  | [], [] => false
  | [], _ :: _ => true
  | _ :: _, [] => false
  | a :: as, b :: bs =>
    if a.toNat < b.toNat then true
    else if b.toNat < a.toNat then false
    else charListLt as bs

/-- Strict total order on strings (charwise on the underlying data). -/
def strLt (a b : String) : Bool := charListLt a.data b.data

/-- A decidable strict comparison on a key type, used to canonicalise
association-list maps. -/
class LtKey (K : Type) where
  klt : K → K → Bool

/-- The laws of a strict total order that canonical insertion relies on:
asymmetry, transitivity and connectedness of the comparison. -/
def LtLaws (K : Type) [LtKey K] : Prop :=
  (∀ a b : K, LtKey.klt a b = true → LtKey.klt b a = false) ∧
  (∀ a b c : K, LtKey.klt a b = true → LtKey.klt b c = true →
    LtKey.klt a c = true) ∧
  (∀ a b : K, LtKey.klt a b = false → LtKey.klt b a = false → a = b)

instance : LtKey String where
  klt := strLt

/-- Lexicographic order on `ScopedName` (module name, then name); used only
to canonicalise association-list maps. -/
def snLt (a b : ScopedName) : Bool :=
  strLt a.module_name b.module_name ||
    (a.module_name = b.module_name && strLt a.name b.name)

instance : LtKey ScopedName where
  klt := snLt

section Smap

variable {K V : Type} [DecidableEq K] [LtKey K]

/-- Insert into an association-list map, keeping keys in ascending `klt`
order and replacing the value at an existing key: the model of
`HashMap::insert`, canonicalised so that map equality is list equality. -/
def insertS (k : K) (v : V) : List (K × V) → List (K × V)
  | [] => [(k, v)]
  | (k', v') :: t =>
    if LtKey.klt k k' then (k, v) :: (k', v') :: t
    else if k = k' then (k, v) :: t
    else (k', v') :: insertS k v t

/-- First-match lookup in an association-list map: `HashMap::get`. -/
def lookupS (k : K) : List (K × V) → Option V
  | [] => none
  | (k', v') :: t => if k = k' then some v' else lookupS k t

/-- The operation `HashMap::contains_key`. -/
def containsS (k : K) (l : List (K × V)) : Bool :=
  (lookupS k l).isSome

/-- Modify the value at the first occurrence of key `k` (the model of
`HashMap::get_mut` followed by an in-place update); `none` when `k` is absent
or the inner modification fails. -/
def modifyS (k : K) (f : V → Option V) : List (K × V) → Option (List (K × V))
  | [] => none
  | (k', v') :: t =>
    if k = k' then (f v').map (fun v => (k', v) :: t)
    else (modifyS k f t).map (fun t' => (k', v') :: t')

end Smap

/-- Primitive type tokens.  Modelled from the spec: the primitive table
(`primitives.rs`, whose source is not part of the fileset) is specified in
§4.1 as a bijective table over these nineteen reserved identifiers. -/
inductive PrimitiveType where
  | int8 | int16 | int32 | int64
  | word8 | word16 | word32 | word64
  | bool | void | float | double
  | string | byteVector | vector | stringMap
  | nullable | typeToken | json
deriving DecidableEq, Repr

/-- Modelled from the spec: the function `prim_from_str` of the primitive
table (§4.1), mapping a reserved identifier to its primitive token. -/
def prim_from_str (s : String) : Option PrimitiveType :=
  match s with
  | "Int8" => some .int8
  | "Int16" => some .int16
  | "Int32" => some .int32
  | "Int64" => some .int64
  | "Word8" => some .word8
  | "Word16" => some .word16
  | "Word32" => some .word32
  | "Word64" => some .word64
  | "Bool" => some .bool
  | "Void" => some .void
  | "Float" => some .float
  | "Double" => some .double
  | "String" => some .string
  | "ByteVector" => some .byteVector
  | "Vector" => some .vector
  | "StringMap" => some .stringMap
  | "Nullable" => some .nullable
  | "TypeToken" => some .typeToken
  | "Json" => some .json
  | _ => none

/-- The type `adlast::TypeRef`: a classified type reference. -/
inductive TypeRef where
  | primitive (p : PrimitiveType)
  | typeParam (i : Ident)
  | localName (i : Ident)
  | scopedName (sn : ScopedName)
deriving DecidableEq, Repr

/-- The type `adlast::TypeExpr<R>`: a type-reference root plus the type
expressions it is applied to. -/
inductive TypeExpr (R : Type) where
  | mk (type_ref : R) (parameters : List (TypeExpr R))

abbrev TypeExpr0 := TypeExpr ScopedName
abbrev TypeExpr1 := TypeExpr TypeRef

/-- The root reference of a type expression. -/
def TypeExpr.type_ref {R : Type} : TypeExpr R → R
  | .mk r _ => r

/-- The parameter list of a type expression. -/
def TypeExpr.parameters {R : Type} : TypeExpr R → List (TypeExpr R)
  | .mk _ ps => ps

/-- Annotation maps: `Map<ScopedName, serde_json::Value>` (written `anns`
throughout this embedding). -/
abbrev AnnMap := List (ScopedName × Json)

/-- The type `adlast::Field<TE>`. -/
structure Field (TE : Type) where
  name : Ident
  serialized_name : Option Ident
  type_expr : TE
  default : Option Json
  anns : AnnMap

/-- The type `adlast::Struct<TE>`. -/
structure Struct (TE : Type) where
  type_params : List Ident
  fields : List (Field TE)

/-- The type `adlast::Union<TE>`. -/
structure Union (TE : Type) where
  type_params : List Ident
  fields : List (Field TE)

/-- The type `adlast::TypeDef<TE>` (a type alias). -/
structure TypeDef (TE : Type) where
  type_params : List Ident
  type_expr : TE

/-- The type `adlast::NewType<TE>`. -/
structure NewType (TE : Type) where
  type_params : List Ident
  type_expr : TE
  default : Option Json

/-- The type `adlast::DeclType<TE>`. -/
inductive DeclType (TE : Type) where
  | struct_ (s : Struct TE)
  | union_ (u : Union TE)
  | type_ (t : TypeDef TE)
  | newtype (n : NewType TE)

/-- The type `adlast::Decl<TE>` (the body field `r#type` is written `type_`). -/
structure Decl (TE : Type) where
  name : Ident
  version : Option Nat
  type_ : DeclType TE
  anns : AnnMap

/-- The type `adlast::Import`. -/
inductive Import where
  | moduleName (mn : ModuleName)
  | scopedName (sn : ScopedName)
deriving DecidableEq, Repr

/-- The type `adlast::Module<TE>` (source locations of `Spanned` values are
dropped; `decls` is the association list modelling the decl hash map). -/
structure Module (TE : Type) where
  name : ModuleName
  imports : List Import
  decls : List (Ident × Decl TE)
  anns : AnnMap

abbrev Decl0 := Decl TypeExpr0
abbrev Decl1 := Decl TypeExpr1
abbrev Module0 := Module TypeExpr0
abbrev Module1 := Module TypeExpr1

/-- The enum `ResolveError` of resolver.rs (the variant `NoDeclForAnnotation`
is written `noDeclForAnn`). -/
inductive ResolveError where
  | noDeclForAnn
  | moduleNotFound
  | declNotFound
  | localNotFound (s : String)
  | circularModules (mn : ModuleName)
  | loadFailed
deriving DecidableEq, Repr

/-- The struct `ResolveCtx` of resolver.rs; the `resolver: &mut Resolver`
reference is modelled by the resolver's module map, the only part the
per-module resolution reads. -/
structure ResolveCtx where
  modules : List (ModuleName × Module1)
  module0 : Module0
  expanded_imports : List (Ident × ScopedName)
  type_params : List Ident

/-- The method `ResolveCtx::resolve_type_ref` (resolver.rs lines 289-314). -/
def resolveTypeRef (ctx : ResolveCtx) (scoped_name0 : ScopedName) :
    Except ResolveError TypeRef :=
  if scoped_name0.module_name = "" then
    let name := scoped_name0.name
    if ctx.type_params.contains name then
      .ok (.typeParam name)
    else match prim_from_str name with
    | some ptype => .ok (.primitive ptype)
    | none =>
      if containsS name ctx.module0.decls then
        .ok (.localName name)
      else match lookupS name ctx.expanded_imports with
      | some scoped_name => .ok (.scopedName scoped_name)
      | none => .error (.localNotFound name)
  else
    match lookupS scoped_name0.module_name ctx.modules with
    | none => .error .moduleNotFound
    | some module1 =>
      match lookupS scoped_name0.name module1.decls with
      | none => .error .declNotFound
      | some _ => .ok (.scopedName scoped_name0)

mutual

/-- The function `resolve_type_expr` (resolver.rs lines 266-275). -/
def resolveTypeExpr (ctx : ResolveCtx) : TypeExpr0 → Except ResolveError TypeExpr1
  | .mk tr ps =>
    match resolveTypeRef ctx tr with
    | .error e => .error e
    | .ok type_ref =>
      match resolveTypeExprList ctx ps with
      | .error e => .error e
      | .ok parameters => .ok (.mk type_ref parameters)

/-- Elementwise resolution of the parameter list of a type expression (the
`iter().map(...).collect::<Result<Vec<_>>>()` of `resolve_type_expr`). -/
def resolveTypeExprList (ctx : ResolveCtx) :
    List TypeExpr0 → Except ResolveError (List TypeExpr1)
  | [] => .ok []
  | te :: tes =>
    match resolveTypeExpr ctx te with
    | .error e => .error e
    | .ok te1 =>
      match resolveTypeExprList ctx tes with
      | .error e => .error e
      | .ok tes1 => .ok (te1 :: tes1)

end

/-- The pair-resolution step of `resolve_annotations` (resolver.rs lines
251-261): each annotation key must resolve to a `ScopedName`. -/
def resolveAnnPairs (ctx : ResolveCtx) :
    List (ScopedName × Json) → Except ResolveError (List (ScopedName × Json))
  | [] => .ok []
  | (sn0, jv) :: t =>
    match resolveTypeRef ctx sn0 with
    | .error e => .error e
    | .ok tr1 =>
      match tr1 with
      | .scopedName sn1 =>
        match resolveAnnPairs ctx t with
        | .error e => .error e
        | .ok t1 => .ok ((sn1, jv) :: t1)
      | _ => .error .noDeclForAnn

/-- The function `resolve_annotations` (resolver.rs lines 247-264): resolve
every key, then collect into a map (`collect::<Result<HashMap<_,_>>>`). -/
def resolveAnns (ctx : ResolveCtx) (anns0 : AnnMap) : Except ResolveError AnnMap :=
  match resolveAnnPairs ctx anns0 with
  | .error e => .error e
  | .ok pairs => .ok (pairs.foldl (fun acc kv => insertS kv.1 kv.2 acc) [])

/-- The function `resolve_field` (resolver.rs lines 233-245).  Note that the
field's annotations are resolved with the same context as its type
expression. -/
def resolveField (ctx : ResolveCtx) (field0 : Field TypeExpr0) :
    Except ResolveError (Field TypeExpr1) :=
  match resolveTypeExpr ctx field0.type_expr with
  | .error e => .error e
  | .ok type_expr1 =>
    match resolveAnns ctx field0.anns with
    | .error e => .error e
    | .ok anns1 =>
      .ok { name := field0.name
            serialized_name := field0.serialized_name
            type_expr := type_expr1
            default := field0.default
            anns := anns1 }

/-- The function `resolve_fields` (resolver.rs lines 223-231). -/
def resolveFields (ctx : ResolveCtx) :
    List (Field TypeExpr0) → Except ResolveError (List (Field TypeExpr1))
  | [] => .ok []
  | f :: fs =>
    match resolveField ctx f with
    | .error e => .error e
    | .ok f1 =>
      match resolveFields ctx fs with
      | .error e => .error e
      | .ok fs1 => .ok (f1 :: fs1)

/-- The function `with_type_params` (resolver.rs lines 317-327): same context
with the type-parameter scope replaced by the given list. -/
def withTypeParams (ctx0 : ResolveCtx) (type_params : List Ident) : ResolveCtx :=
  { ctx0 with type_params := type_params }

/-- The function `resolve_struct` (resolver.rs lines 179-187). -/
def resolveStruct (ctx0 : ResolveCtx) (struct0 : Struct TypeExpr0) :
    Except ResolveError (DeclType TypeExpr1) :=
  match resolveFields (withTypeParams ctx0 struct0.type_params) struct0.fields with
  | .error e => .error e
  | .ok fields => .ok (.struct_ { type_params := struct0.type_params, fields := fields })

/-- The function `resolve_union` (resolver.rs lines 189-197). -/
def resolveUnion (ctx0 : ResolveCtx) (union0 : Union TypeExpr0) :
    Except ResolveError (DeclType TypeExpr1) :=
  match resolveFields (withTypeParams ctx0 union0.type_params) union0.fields with
  | .error e => .error e
  | .ok fields => .ok (.union_ { type_params := union0.type_params, fields := fields })

/-- The function `resolve_type_alias` (resolver.rs lines 199-207). -/
def resolveTypeAlias (ctx0 : ResolveCtx) (type0 : TypeDef TypeExpr0) :
    Except ResolveError (DeclType TypeExpr1) :=
  match resolveTypeExpr (withTypeParams ctx0 type0.type_params) type0.type_expr with
  | .error e => .error e
  | .ok te1 => .ok (.type_ { type_params := type0.type_params, type_expr := te1 })

/-- The function `resolve_newtype` (resolver.rs lines 209-221). -/
def resolveNewtype (ctx0 : ResolveCtx) (newtype0 : NewType TypeExpr0) :
    Except ResolveError (DeclType TypeExpr1) :=
  match resolveTypeExpr (withTypeParams ctx0 newtype0.type_params) newtype0.type_expr with
  | .error e => .error e
  | .ok te1 =>
    .ok (.newtype { type_params := newtype0.type_params, type_expr := te1,
                    default := newtype0.default })

/-- The function `resolve_decl` (resolver.rs lines 159-177): the body is
resolved under the decl's type-parameter scope, then the decl's own
annotations are resolved under the incoming (empty) scope. -/
def resolveDecl (ctx : ResolveCtx) (decl0 : Decl0) : Except ResolveError Decl1 :=
  match (match decl0.type_ with
         | .struct_ s => resolveStruct ctx s
         | .union_ u => resolveUnion ctx u
         | .type_ t => resolveTypeAlias ctx t
         | .newtype n => resolveNewtype ctx n) with
  | .error e => .error e
  | .ok dtype =>
    match resolveAnns ctx decl0.anns with
    | .error e => .error e
    | .ok anns1 =>
      .ok { name := decl0.name, version := decl0.version,
            type_ := dtype, anns := anns1 }

/-- Elementwise resolution of the decl map (the `iter().map(...).collect` of
`resolve_module`); entries keep their keys. -/
def resolveDeclList (ctx : ResolveCtx) :
    List (Ident × Decl0) → Except ResolveError (List (Ident × Decl1))
  | [] => .ok []
  | (n, d0) :: t =>
    match resolveDecl ctx d0 with
    | .error e => .error e
    | .ok d1 =>
      match resolveDeclList ctx t with
      | .error e => .error e
      | .ok t1 => .ok ((n, d1) :: t1)

/-- The function `resolve_module` (resolver.rs lines 140-157). -/
def resolveModule (ctx : ResolveCtx) (module0 : Module0) :
    Except ResolveError Module1 :=
  match resolveDeclList ctx module0.decls with
  | .error e => .error e
  | .ok decls1 =>
    match resolveAnns ctx module0.anns with
    | .error e => .error e
    | .ok anns1 =>
      .ok { name := module0.name, imports := module0.imports,
            decls := decls1, anns := anns1 }

mutual

/-- Scoped names consumed by the `find_module_refs` consumer from one type
expression of a raw module (`consume_type_expr`: the root reference first,
then the parameters); `consume_typeref` forwards to `consume_scoped_name`,
which keeps only non-empty module names. -/
def teRefNames : TypeExpr0 → List ModuleName
  | .mk sn ps =>
    (if sn.module_name ≠ "" then [sn.module_name] else []) ++ teRefNamesList ps

/-- The list version of `teRefNames` for the parameters of an application. -/
def teRefNamesList : List TypeExpr0 → List ModuleName
  | [] => []
  | te :: tes => teRefNames te ++ teRefNamesList tes

end

/-- Module names consumed from an annotation map (`consume_annotations` with
the filtering `consume_scoped_name` of `find_module_refs`). -/
def annRefNames (anns : AnnMap) : List ModuleName :=
  anns.foldr (fun kv acc =>
    (if kv.1.module_name ≠ "" then [kv.1.module_name] else []) ++ acc) []

/-- Module names consumed from one field (`consume_field`: annotations first,
then the type expression). -/
def fieldRefNames (f : Field TypeExpr0) : List ModuleName :=
  annRefNames f.anns ++ teRefNames f.type_expr

/-- Module names consumed from a field list (`consume_fields`). -/
def fieldsRefNames : List (Field TypeExpr0) → List ModuleName
  | [] => []
  | f :: fs => fieldRefNames f ++ fieldsRefNames fs

/-- Module names consumed from one decl (`consume_decl`: annotations first,
then the body). -/
def declRefNames (d : Decl0) : List ModuleName :=
  annRefNames d.anns ++
    match d.type_ with
    | .struct_ s => fieldsRefNames s.fields
    | .union_ u => fieldsRefNames u.fields
    | .type_ t => teRefNames t.type_expr
    | .newtype n => teRefNames n.type_expr

/-- Module names consumed from a whole raw module (`consume_module`: the
module's annotations, then each decl). -/
def moduleRefNames (m : Module0) : List ModuleName :=
  annRefNames m.anns ++
    (m.decls.foldr (fun kv acc => declRefNames kv.2 ++ acc) [])

/-- Add an element to a duplicate-free list unless present: the model of
`HashSet::insert` under this embedding's determinised iteration order. -/
def insertOnce (l : List ModuleName) (x : ModuleName) : List ModuleName :=
  if x ∈ l then l else l ++ [x]

/-- The module name an import contributes to the reference set (resolver.rs
lines 354-358): the imported module for a `ModuleName` import, the qualifier
for a `ScopedName` import (with no emptiness filter). -/
def importRefName : Import → ModuleName
  | .moduleName mn => mn
  | .scopedName sn => sn.module_name

/-- The function `find_module_refs` (resolver.rs lines 336-361): the set of
module names referenced by the module body (non-empty module names of type
references and annotation keys) plus, for every import, its module name. -/
def findModuleRefs (m : Module0) : List ModuleName :=
  let fromBody := (moduleRefNames m).foldl insertOnce []
  m.imports.foldl (fun acc i => insertOnce acc (importRefName i)) fromBody

/-- The struct `Resolver` without its loader: the map of resolved modules. -/
structure Resolver where
  modules : List (ModuleName × Module1)

/-- The loader contract: `load` returns `Except` for an I/O failure, `none`
for "no such module". -/
def Loader : Type := ModuleName → Except Unit (Option Module0)

/-- The method `Resolver::add_default_imports` (resolver.rs lines 104-112). -/
def addDefaultImports (module : Module0) : Module0 :=
  let din : ModuleName := "sys.annotations"
  let di : Import := .moduleName din
  if module.name ≠ din ∧ ¬ module.imports.contains di then
    { module with imports := module.imports ++ [di] }
  else module

/-- The method `Resolver::get_expanded_imports` (resolver.rs lines 114-137).
A `ScopedName` import contributes its short name; a `ModuleName` import of a
resolved module contributes every decl of the stored module, qualified by the
stored module's own `name` field. -/
def getExpandedImports (modules : List (ModuleName × Module1)) (module : Module0) :
    List (Ident × ScopedName) :=
  module.imports.foldl (fun result i =>
    match i with
    | .scopedName sn => insertS sn.name sn result
    | .moduleName mn =>
      match lookupS mn modules with
      | some m =>
        m.decls.foldl (fun acc kv =>
          insertS kv.1 { module_name := m.name, name := kv.1 } acc) result
      | none => result) []

/-- The tail of `add_module_impl` (resolver.rs lines 73-86): compute the
expanded imports, resolve the module in a fresh context with an empty
type-parameter scope, and insert the result under the requested name. -/
def resolveAndInsert (res : Resolver) (module_name : ModuleName)
    (module0 : Module0) : Option (Except ResolveError Resolver) :=
  let expanded := getExpandedImports res.modules module0
  let ctx : ResolveCtx :=
    { modules := res.modules, module0 := module0,
      expanded_imports := expanded, type_params := [] }
  match resolveModule ctx module0 with
  | .error e => some (.error e)
  | .ok module1 =>
    some (.ok { modules := insertS module_name module1 res.modules })

mutual

/-- The method `Resolver::add_module_impl` (resolver.rs lines 46-87), with a
fuel parameter for the general recursion through the loader; `none` models a
computation that has not terminated within the given fuel (every nested call
consumes one unit).  Note that the recursion over the referenced modules goes
through `addModule`, which starts from a fresh in-progress set, exactly as
the source's `self.add_module(m)?` does. -/
def addModuleImpl (loader : Loader) :
    Nat → Resolver → List ModuleName → ModuleName → Option (Except ResolveError Resolver)
  | 0, _, _, _ => none
  | fuel + 1, res, in_progress, module_name =>
    if containsS module_name res.modules then some (.ok res)
    else if module_name ∈ in_progress then
      some (.error (.circularModules module_name))
    else
      match loader module_name with
      | .error _ => some (.error .loadFailed)
      | .ok none => some (.error .moduleNotFound)
      | .ok (some m0) =>
        let module0 := addDefaultImports m0
        let module_refs := findModuleRefs module0
        match addModuleList loader fuel res module_refs with
        | none => none
        | some (.error e) => some (.error e)
        | some (.ok res') => resolveAndInsert res' module_name module0

/-- The `for m in &module_refs { self.add_module(m)?; }` loop of
`add_module_impl`: each referenced module is added through the public entry
point, with a fresh in-progress set. -/
def addModuleList (loader : Loader) :
    Nat → Resolver → List ModuleName → Option (Except ResolveError Resolver)
  | 0, _, _ => none
  | _ + 1, res, [] => some (.ok res)
  | fuel + 1, res, mn :: mns =>
    match addModuleImpl loader fuel res [] mn with
    | none => none
    | some (.error e) => some (.error e)
    | some (.ok res') => addModuleList loader fuel res' mns

end

/-- The method `Resolver::add_module` (resolver.rs lines 41-44): run
`add_module_impl` with a fresh (empty) in-progress set. -/
def addModule (loader : Loader) (fuel : Nat) (res : Resolver) (module_name : ModuleName) :
    Option (Except ResolveError Resolver) :=
  addModuleImpl loader fuel res [] module_name

/-- The method `Resolver::get_module` (resolver.rs lines 93-95). -/
def getModule (res : Resolver) (module_name : ModuleName) : Option Module1 :=
  lookupS module_name res.modules

/-- The enum `ExplicitAnnotationRef` of the parser (annotations.rs). -/
inductive ExplicitAnnRef where
  | module
  | decl (decl_name : Ident)
  | field (df : Ident × Ident)
deriving DecidableEq, Repr

/-- One record of the parser's explicit-annotation sidecar. -/
structure ExplicitAnn where
  refr : ExplicitAnnRef
  scoped_name : ScopedName
  value : Json

/-- The parser output `RawModule`: a module plus the explicit-annotation
sidecar. -/
abbrev RawModule := Module0 × List ExplicitAnn

/-- The error `UnresolvedExplicitAnnotations` (annotations.rs lines 66-69). -/
structure UnresolvedExplicitAnns where
  unresolved : List ExplicitAnnRef

/-- Update the annotations of the first field with the given name, mirroring
the `fields.iter_mut().find(...)` of `find_annotations_ref`. -/
def modifyFieldAnns (field_name : Ident) (f : AnnMap → AnnMap) :
    List (Field TypeExpr0) → Option (List (Field TypeExpr0))
  | [] => none
  | fld :: t =>
    if fld.name = field_name then some ({ fld with anns := f fld.anns } :: t)
    else (modifyFieldAnns field_name f t).map (fun t' => fld :: t')

/-- The decl-level update of annotations.rs lines 41-45: a `Decl` reference
applies the modification to the decl's own annotation map, and always
resolves once the decl is found. -/
def declAnnsG (f : AnnMap → AnnMap) (d : Decl0) : Option Decl0 :=
  some { d with anns := f d.anns }

/-- The decl-level update of annotations.rs lines 47-62: a `Field` reference
reaches through a Struct or Union body to the named field's annotation map,
and fails on a type alias or newtype, or when the field is missing. -/
def fieldAnnsG (field_name : Ident) (f : AnnMap → AnnMap) (d : Decl0) :
    Option Decl0 :=
  match d.type_ with
  | .struct_ s =>
    (modifyFieldAnns field_name f s.fields).map
      (fun fs => { d with type_ := .struct_ { s with fields := fs } })
  | .union_ u =>
    (modifyFieldAnns field_name f u.fields).map
      (fun fs => { d with type_ := .union_ { u with fields := fs } })
  | _ => none

/-- The function `find_annotations_ref` (annotations.rs lines 35-64), fused
with the mutation performed through the returned `&mut Annotations`: apply
`f` to the referenced annotation map, or `none` when the reference does not
resolve to a target. -/
def modifyAnnsRef (ear : ExplicitAnnRef) (f : AnnMap → AnnMap) (module0 : Module0) :
    Option Module0 :=
  match ear with
  | .module => some { module0 with anns := f module0.anns }
  | .decl decl_name =>
    match modifyS decl_name (declAnnsG f) module0.decls with
    | some decls' => some { module0 with decls := decls' }
    | none => none
  | .field (decl_name, field_name) =>
    match modifyS decl_name (fieldAnnsG field_name f) module0.decls with
    | some decls' => some { module0 with decls := decls' }
    | none => none

/-- The record loop of `apply_explicit_annotations` (annotations.rs lines
15-25): bind each record in order, accumulating the unresolved references. -/
def applyEAList : Module0 → List ExplicitAnnRef → List ExplicitAnn →
    Module0 × List ExplicitAnnRef
  | m, unresolved, [] => (m, unresolved)
  | m, unresolved, ea :: t =>
    match modifyAnnsRef ea.refr (insertS ea.scoped_name ea.value) m with
    | some m' => applyEAList m' unresolved t
    | none => applyEAList m (unresolved ++ [ea.refr]) t

/-- The function `apply_explicit_annotations` (annotations.rs lines 9-32). -/
def applyExplicitAnns (raw_module : RawModule) :
    Except UnresolvedExplicitAnns Module0 :=
  let (module0, explicit_anns) := raw_module
  let (m, unresolved) := applyEAList module0 [] explicit_anns
  if unresolved.isEmpty then .ok m
  else .error { unresolved := unresolved }

/-- Characterisation of the explicit-annotation references that
`find_annotations_ref` can resolve in a module: `Module` always; `Decl d`
when `d` is a decl; `Field (d, f)` when `d` is a Struct or Union decl with a
field named `f`. -/
def hasAnnsTarget (m0 : Module0) : ExplicitAnnRef → Bool
  | .module => true
  | .decl d => containsS d m0.decls
  | .field (d, f) =>
    match lookupS d m0.decls with
    | some dd =>
      match dd.type_ with
      | .struct_ s => s.fields.any (fun fl => fl.name = f)
      | .union_ u => u.fields.any (fun fl => fl.name = f)
      | _ => false
    | none => false

/-- Totalisation of `modifyS`: modify the value at the key when present,
otherwise leave the map unchanged (proof scaffolding). -/
def tryModS {K V : Type} [DecidableEq K] (k : K) (g : V → Option V)
    (l : List (K × V)) : List (K × V) :=
  (modifyS k g l).getD l

/-- Totalisation of `modifyFieldAnns` (proof scaffolding). -/
def tryMFA (field_name : Ident) (f : AnnMap → AnnMap)
    (fs : List (Field TypeExpr0)) : List (Field TypeExpr0) :=
  (modifyFieldAnns field_name f fs).getD fs

/-- Totalisation of one step of the explicit-annotation loop: bind the
record when its target resolves, otherwise leave the module unchanged
(proof scaffolding). -/
def tryInsertAnn (ea : ExplicitAnn) (m : Module0) : Module0 :=
  (modifyAnnsRef ea.refr (insertS ea.scoped_name ea.value) m).getD m

/-! Concrete example inputs used by witness and counterexample theorems. -/

/-- An empty module with the given name. -/
def emptyMod (n : ModuleName) : Module0 :=
  { name := n, imports := [], decls := [], anns := [] }

/-- Example module `P`, importing `Q` (cycle scenario, spec §8 (3)). -/
def modP : Module0 :=
  { name := "P", imports := [.moduleName "Q"], decls := [], anns := [] }

/-- Example module `Q`, importing `P` (cycle scenario, spec §8 (3)). -/
def modQ : Module0 :=
  { name := "Q", imports := [.moduleName "P"], decls := [], anns := [] }

/-- A loader serving the two-module import cycle `P` ↔ `Q` (plus the
default import `sys.annotations` as an empty module). -/
def loaderPQ : Loader := fun mn =>
  if mn = "P" then .ok (some modP)
  else if mn = "Q" then .ok (some modQ)
  else if mn = "sys.annotations" then .ok (some (emptyMod ("sys.annotations")))
  else .error ()

/-- Example field `x` whose type is the unqualified name `NotThere`. -/
def fieldX : Field TypeExpr0 :=
  { name := "x", serialized_name := none,
    type_expr := TypeExpr.mk ⟨"", "NotThere"⟩ [], default := none, anns := [] }

/-- Example struct decl `S { NotThere x; }`. -/
def declS : Decl0 :=
  { name := "S", version := none,
    type_ := .struct_ { type_params := [], fields := [fieldX] },
    anns := [] }

/-- Example module `A`: `import M.NotThere; struct S { NotThere x; }` where
module `M` exists but declares nothing. -/
def modA : Module0 :=
  { name := "A", imports := [.scopedName ⟨"M", "NotThere"⟩],
    decls := [("S", declS)], anns := [] }

/-- Example module `M` with no decls. -/
def modM : Module0 := emptyMod ("M")

/-- A loader serving `A`, the empty module `M`, and `sys.annotations`. -/
def loaderA : Loader := fun mn =>
  if mn = "A" then .ok (some modA)
  else if mn = "M" then .ok (some modM)
  else if mn = "sys.annotations" then .ok (some (emptyMod ("sys.annotations")))
  else .error ()

/-- An example resolution context: empty module `X`, expanded imports mapping
`T` to `M.T` and `Doc` to `sys.annotations.Doc`, no type parameters. -/
def ctxX : ResolveCtx :=
  { modules := [],
    module0 := { name := "X", imports := [], decls := [], anns := [] },
    expanded_imports := [("Doc", ⟨"sys.annotations", "Doc"⟩), ("T", ⟨"M", "T"⟩)],
    type_params := [] }

/-- Example field `z : Word64` carrying the annotation key `T`. -/
def fieldZT : Field TypeExpr0 :=
  { name := "z", serialized_name := none,
    type_expr := TypeExpr.mk ⟨"", "Word64"⟩ [], default := none,
    anns := [(⟨"", "T"⟩, Json.num 1)] }

/-- Example struct decl with the given type parameters and the field
`fieldZT`; used to contrast resolution with and without the parameter `T`. -/
def declBox (tps : List Ident) : Decl0 :=
  { name := "Box", version := none,
    type_ := .struct_ { type_params := tps, fields := [fieldZT] },
    anns := [] }

/-- Example alias decl `type T = Void`. -/
def declT : Decl1 :=
  { name := "T", version := none,
    type_ := .type_ { type_params := [], type_expr := TypeExpr.mk (.primitive .void) [] },
    anns := [] }

/-- Example resolved module `sys.types`, declaring only `T`. -/
def modSysTypes : Module1 :=
  { name := "sys.types", imports := [], decls := [("T", declT)], anns := [] }

/-- Example context whose resolver holds the resolved module `sys.types`. -/
def ctxSys : ResolveCtx :=
  { ctxX with modules := [("sys.types", modSysTypes)] }

/-- Example field `z : Word64` with the inline annotation `C`. -/
def fieldZ : Field TypeExpr0 :=
  { name := "z", serialized_name := none,
    type_expr := TypeExpr.mk ⟨"", "Word64"⟩ [], default := none,
    anns := [(⟨"", "C"⟩, Json.num 3)] }

/-- Example struct decl `Y { Word64 z; }` with the inline annotation `B`. -/
def declY : Decl0 :=
  { name := "Y", version := none,
    type_ := .struct_ { type_params := [], fields := [fieldZ] },
    anns := [(⟨"", "B"⟩, Json.num 2)] }

/-- Example module `X { struct Y { Word64 z; } }` with the inline module
annotation `A` (spec §8 scenarios (1) and (2)). -/
def modX : Module0 :=
  { name := "X", imports := [], decls := [("Y", declY)],
    anns := [(⟨"", "A"⟩, Json.num 1)] }

/-- Example alias decl `type AL = Void`. -/
def declAlias : Decl0 :=
  { name := "AL", version := none,
    type_ := .type_ { type_params := [], type_expr := TypeExpr.mk ⟨"", "Void"⟩ [] },
    anns := [] }

/-- Example module `X` extended with the alias decl `AL`. -/
def modXA : Module0 :=
  { modX with decls := [("Y", declY), ("AL", declAlias)] }

/-- The three explicit annotations of spec §8 scenario (1): `E` on the
module, `F` on decl `Y`, `G` on field `Y::z`. -/
def easOK : List ExplicitAnn :=
  [ { refr := .module, scoped_name := ⟨"", "E"⟩, value := Json.num 6 },
    { refr := .decl "Y", scoped_name := ⟨"", "F"⟩, value := Json.num 7 },
    { refr := .field ("Y", "z"), scoped_name := ⟨"", "G"⟩, value := Json.num 8 } ]

/-- The list `easOK` with its first two records swapped. -/
def easOKswap : List ExplicitAnn :=
  [ { refr := .decl "Y", scoped_name := ⟨"", "F"⟩, value := Json.num 7 },
    { refr := .module, scoped_name := ⟨"", "E"⟩, value := Json.num 6 },
    { refr := .field ("Y", "z"), scoped_name := ⟨"", "G"⟩, value := Json.num 8 } ]

/-- The three failing explicit annotations of spec §8 scenario (2). -/
def easBAD : List ExplicitAnn :=
  [ { refr := .decl "A", scoped_name := ⟨"", "F"⟩, value := Json.num 7 },
    { refr := .field ("A", "z"), scoped_name := ⟨"", "G"⟩, value := Json.num 8 },
    { refr := .field ("Y", "q"), scoped_name := ⟨"", "G"⟩, value := Json.num 9 } ]

/-- The module obtained by binding `easOK` onto `modX`. -/
def modXBound : Module0 :=
  (applyExplicitAnns (modX, easOK)).toOption.getD modX

/-- Resolved form of `fieldZT` when `T` is not a type parameter: its
annotation key became the imported `M.T`. -/
def fieldZT1 : Field TypeExpr1 :=
  { name := "z", serialized_name := none,
    type_expr := TypeExpr.mk (.primitive .word64) [],
    default := none, anns := [(⟨"M", "T"⟩, Json.num 1)] }

/-- Resolved form of `declBox []`. -/
def declBoxResolved : Decl1 :=
  { name := "Box", version := none,
    type_ := .struct_ { type_params := [], fields := [fieldZT1] },
    anns := [] }

/-- Example field `z : Word64` with no annotations. -/
def fieldZW : Field TypeExpr0 :=
  { name := "z", serialized_name := none,
    type_expr := TypeExpr.mk ⟨"", "Word64"⟩ [], default := none, anns := [] }

/-- Example struct decl with a decl-level annotation keyed `T` and the given
type parameters. -/
def declBoxD (tps : List Ident) : Decl0 :=
  { name := "Box", version := none,
    type_ := .struct_ { type_params := tps, fields := [fieldZW] },
    anns := [(⟨"", "T"⟩, Json.num 1)] }

/-- Resolved form of `declBoxD [T]`: the decl-level key still resolves to
the import `M.T`, unaffected by the type parameter. -/
def declBoxDResolved : Decl1 :=
  { name := "Box", version := none,
    type_ := .struct_
      { type_params := ["T"],
        fields := [{ name := "z", serialized_name := none,
                     type_expr := TypeExpr.mk (.primitive .word64) [],
                     default := none, anns := [] }] },
    anns := [(⟨"M", "T"⟩, Json.num 1)] }

/-- Example resolved decl `d` (an alias of Void). -/
def declD1 : Decl1 :=
  { name := "d", version := none,
    type_ := .type_ { type_params := [], type_expr := TypeExpr.mk (.primitive .void) [] },
    anns := [] }

/-- A resolved module whose recorded name `N` differs from the key `M` it
will be stored under. -/
def modN1 : Module1 :=
  { name := "N", imports := [], decls := [("d", declD1)], anns := [] }

/-- Example raw module importing everything from `M`. -/
def modImpM : Module0 :=
  { name := "W", imports := [.moduleName "M"], decls := [], anns := [] }

mutual

/-- All type references occurring in a type expression, root first. -/
def teRefs {R : Type} : TypeExpr R → List R
  | .mk r ps => r :: teRefsList ps

/-- All type references occurring in a list of type expressions. -/
def teRefsList {R : Type} : List (TypeExpr R) → List R
  | [] => []
  | te :: tes => teRefs te ++ teRefsList tes

end

/-- All type references occurring in a decl body: in the type expression of
each field of a Struct or Union, or in the aliased / wrapped type expression
of a Type alias or Newtype. -/
def declTypeRefs {R : Type} : DeclType (TypeExpr R) → List R
  | .struct_ s => s.fields.foldr (fun f acc => teRefs f.type_expr ++ acc) []
  | .union_ u => u.fields.foldr (fun f acc => teRefs f.type_expr ++ acc) []
  | .type_ t => teRefs t.type_expr
  | .newtype n => teRefs n.type_expr

/-- All type references occurring in the type expressions of a module. -/
def moduleTypeRefs {R : Type} (m : Module (TypeExpr R)) : List R :=
  m.decls.foldr (fun kv acc => declTypeRefs kv.2.type_ ++ acc) []

/-- Name consistency of a module map: every stored module's recorded name
equals the key it is stored under. -/
def NameCons (modules : List (ModuleName × Module1)) : Prop :=
  ∀ mn m1, lookupS mn modules = some m1 → m1.name = mn

/-- Every `ScopedName` type reference of the module names a module present
in the map. -/
def ScopedOk (modules : List (ModuleName × Module1)) (m1 : Module1) : Prop :=
  ∀ sn, TypeRef.scopedName sn ∈ moduleTypeRefs m1 →
    containsS sn.module_name modules = true

/-- The module-existence invariant of a resolver map: every `ScopedName`
type reference of every held module names a held module. -/
def ModInv (modules : List (ModuleName × Module1)) : Prop :=
  ∀ mn m1, lookupS mn modules = some m1 → ScopedOk modules m1

/-- Key-set growth between two resolver maps. -/
def SubRes (a b : List (ModuleName × Module1)) : Prop :=
  ∀ mn, containsS mn a = true → containsS mn b = true

/-- Every scoped name stored in a context's expanded-import map names a
module held by the context's resolver. -/
def CtxOk (ctx : ResolveCtx) : Prop :=
  ∀ k s, lookupS k ctx.expanded_imports = some s →
    containsS s.module_name ctx.modules = true

/-- The resolver state produced by adding module `A` through `loaderA`. -/
def resolvedA : Resolver :=
  match addModule loaderA 10 ⟨[]⟩ ("A") with
  | some (.ok r) => r
  | _ => ⟨[]⟩

/-- The resolved module stored under `A` in `resolvedA`. -/
def resolvedAmod : Module1 :=
  (getModule resolvedA ("A")).getD modN1

/-- The continuation of `add_module_impl` for module `P` of the cycle
scenario, after its referenced modules were processed (proof scaffolding for
unfolding one step of the recursion). -/
def contP (res' : Resolver) : Option (Except ResolveError Resolver) :=
  resolveAndInsert res' ("P") (addDefaultImports modP)

/-- The continuation of `add_module_impl` for module `Q` of the cycle
scenario (proof scaffolding). -/
def contQ (res' : Resolver) : Option (Except ResolveError Resolver) :=
  resolveAndInsert res' ("Q") (addDefaultImports modQ)

/-!  Theorems.  First, the order laws of the canonicalising comparisons and
the algebra of canonical insertion. -/

theorem charListLt_asymm : ∀ a b, charListLt a b = true → charListLt b a = false := by
  intro a
  induction a with
  | nil => intro b h; cases b <;> simp_all [charListLt]
  | cons x xs ih =>
    intro b h
    cases b with
    | nil => simp [charListLt] at h
    | cons y ys =>
      by_cases h1 : x.toNat < y.toNat
      · simp [charListLt, h1, Nat.lt_asymm h1]
      · by_cases h2 : y.toNat < x.toNat
        · simp [charListLt, h1, h2] at h
        · simp only [charListLt] at h ⊢
          rw [if_neg h1, if_neg h2] at h
          rw [if_neg h2, if_neg h1]
          exact ih ys h

theorem charListLt_trans : ∀ a b c, charListLt a b = true → charListLt b c = true →
    charListLt a c = true := by
  intro a
  induction a with
  | nil =>
    intro b c hab hbc
    cases b with
    | nil => exact hbc
    | cons y ys => cases c with
      | nil => simp [charListLt] at hbc
      | cons z zs => simp [charListLt]
  | cons x xs ih =>
    intro b c hab hbc
    cases b with
    | nil => simp [charListLt] at hab
    | cons y ys =>
      cases c with
      | nil => simp [charListLt] at hbc
      | cons z zs =>
        simp only [charListLt] at hab hbc ⊢
        by_cases h1 : x.toNat < y.toNat <;> by_cases h2 : y.toNat < z.toNat
        · rw [if_pos (Nat.lt_trans h1 h2)]
        · rw [if_neg h2] at hbc
          by_cases h4 : z.toNat < y.toNat
          · rw [if_pos h4] at hbc
            exact absurd hbc (by simp)
          · rw [if_pos (show x.toNat < z.toNat by omega)]
        · rw [if_neg h1] at hab
          by_cases h4 : y.toNat < x.toNat
          · rw [if_pos h4] at hab
            exact absurd hab (by simp)
          · rw [if_pos (show x.toNat < z.toNat by omega)]
        · rw [if_neg h1] at hab
          rw [if_neg h2] at hbc
          by_cases h4 : y.toNat < x.toNat
          · rw [if_pos h4] at hab
            exact absurd hab (by simp)
          · by_cases h5 : z.toNat < y.toNat
            · rw [if_pos h5] at hbc
              exact absurd hbc (by simp)
            · rw [if_neg h4] at hab
              rw [if_neg h5] at hbc
              rw [if_neg (show ¬ x.toNat < z.toNat by omega),
                if_neg (show ¬ z.toNat < x.toNat by omega)]
              exact ih ys zs hab hbc

theorem charListLt_conn : ∀ a b, charListLt a b = false → charListLt b a = false →
    a = b := by
  intro a
  induction a with
  | nil => intro b hab _; cases b with
    | nil => rfl
    | cons y ys => simp [charListLt] at hab
  | cons x xs ih =>
    intro b hab hba
    cases b with
    | nil => simp [charListLt] at hba
    | cons y ys =>
      simp only [charListLt] at hab hba
      by_cases h1 : x.toNat < y.toNat
      · simp [h1] at hab
      · by_cases h2 : y.toNat < x.toNat
        · simp [h1, h2] at hba
        · simp only [if_neg h1, if_neg h2] at hab hba
          have hxy : x.toNat = y.toNat := by omega
          have hx : x = y := Char.eq_of_val_eq (UInt32.ext hxy)
          rw [hx, ih ys hab hba]

theorem strLt_asymm' (a b : String) (h : strLt a b = true) : strLt b a = false :=
  charListLt_asymm a.data b.data h

theorem strLt_conn' (a b : String) (h1 : strLt a b = false)
    (h2 : strLt b a = false) : a = b := by
  cases a; cases b
  exact congrArg String.mk (charListLt_conn _ _ h1 h2)

theorem strLt_irrefl (a : String) : strLt a a = false := by
  by_cases h : strLt a a = true
  · have := charListLt_asymm a.data a.data h
    simp_all [strLt]
  · simp_all

theorem ltLaws_string : LtLaws String := by
  refine ⟨fun a b h => strLt_asymm' a b h,
    fun a b c h1 h2 => charListLt_trans _ _ _ h1 h2,
    fun a b h1 h2 => strLt_conn' a b h1 h2⟩

theorem ltLaws_sn : LtLaws ScopedName := by
  refine ⟨?_, ?_, ?_⟩
  · intro a b h
    simp only [LtKey.klt, snLt, Bool.or_eq_true, Bool.and_eq_true,
      decide_eq_true_eq] at h
    simp only [LtKey.klt, snLt, Bool.or_eq_false_iff, Bool.and_eq_false_iff,
      decide_eq_false_iff_not]
    rcases h with h | ⟨he, h⟩
    · refine ⟨strLt_asymm' _ _ h, .inl ?_⟩
      intro he
      rw [he] at h
      simp [strLt_irrefl] at h
    · rw [he]
      exact ⟨strLt_irrefl _, .inr (strLt_asymm' _ _ h)⟩
  · intro a b c h1 h2
    simp only [LtKey.klt, snLt, Bool.or_eq_true, Bool.and_eq_true,
      decide_eq_true_eq] at h1 h2 ⊢
    rcases h1 with h1 | ⟨he1, h1⟩ <;> rcases h2 with h2 | ⟨he2, h2⟩
    · exact .inl (charListLt_trans _ _ _ h1 h2)
    · rw [he2] at h1
      exact .inl h1
    · rw [he1]
      exact .inl h2
    · rw [he1, he2]
      exact .inr ⟨rfl, charListLt_trans _ _ _ h1 h2⟩
  · intro a b h1 h2
    simp only [LtKey.klt, snLt, Bool.or_eq_false_iff, Bool.and_eq_false_iff,
      decide_eq_false_iff_not] at h1 h2
    obtain ⟨hm1, hr1⟩ := h1
    obtain ⟨hm2, hr2⟩ := h2
    have hm : a.module_name = b.module_name := strLt_conn' _ _ hm1 hm2
    have hn : a.name = b.name := by
      rcases hr1 with h | h
      · exact absurd hm h
      · rcases hr2 with h' | h'
        · exact absurd hm.symm h'
        · exact strLt_conn' _ _ h h'
    cases a; cases b
    simp_all

section SmapLemmas

variable {K V : Type} [DecidableEq K] [LtKey K]

theorem klt_irrefl (hL : LtLaws K) (k : K) : LtKey.klt k k = false := by
  by_cases h : LtKey.klt k k = true
  · have := hL.1 k k h
    simp_all
  · simp_all

theorem klt_total (hL : LtLaws K) {k1 k2 : K} (hne : k1 ≠ k2)
    (h : LtKey.klt k1 k2 = false) : LtKey.klt k2 k1 = true := by
  by_cases h2 : LtKey.klt k2 k1 = true
  · exact h2
  · exact absurd (hL.2.2 k1 k2 h (by simp_all)) hne

theorem insertS_cons_lt {k k' : K} {v v' : V} {t : List (K × V)}
    (h : LtKey.klt k k' = true) :
    insertS k v ((k', v') :: t) = (k, v) :: (k', v') :: t := by
  simp [insertS, h]

theorem insertS_cons_eq (hL : LtLaws K) {k k' : K} {v v' : V} {t : List (K × V)}
    (h : k = k') :
    insertS k v ((k', v') :: t) = (k, v) :: t := by
  subst h
  simp [insertS, klt_irrefl hL]

theorem insertS_cons_gt {k k' : K} {v v' : V} {t : List (K × V)}
    (h1 : LtKey.klt k k' = false) (h2 : k ≠ k') :
    insertS k v ((k', v') :: t) = (k', v') :: insertS k v t := by
  simp [insertS, h1, h2]

/-- Canonical insertion commutes at distinct keys. -/
theorem insertS_comm (hL : LtLaws K) {k1 k2 : K} (h : k1 ≠ k2) (v1 v2 : V) :
    ∀ l : List (K × V),
      insertS k1 v1 (insertS k2 v2 l) = insertS k2 v2 (insertS k1 v1 l) := by
  intro l
  induction l with
  | nil =>
    by_cases hlt : LtKey.klt k1 k2 = true
    · rw [show insertS k2 v2 ([] : List (K × V)) = [(k2, v2)] from rfl,
        show insertS k1 v1 ([] : List (K × V)) = [(k1, v1)] from rfl,
        insertS_cons_lt hlt, insertS_cons_gt (hL.1 _ _ hlt) (Ne.symm h)]
      rfl
    · have hgt := klt_total hL h (by simp_all)
      rw [show insertS k2 v2 ([] : List (K × V)) = [(k2, v2)] from rfl,
        show insertS k1 v1 ([] : List (K × V)) = [(k1, v1)] from rfl,
        insertS_cons_lt hgt, insertS_cons_gt (by simp_all) h]
      rfl
  | cons p t ih =>
    obtain ⟨k', v'⟩ := p
    by_cases hA : LtKey.klt k2 k' = true
    · rw [insertS_cons_lt hA]
      by_cases h12 : LtKey.klt k1 k2 = true
      · have h1k : LtKey.klt k1 k' = true := hL.2.1 _ _ _ h12 hA
        rw [insertS_cons_lt h12, insertS_cons_lt h1k,
          insertS_cons_gt (hL.1 _ _ h12) (Ne.symm h),
          insertS_cons_lt hA]
      · have h21 : LtKey.klt k2 k1 = true := klt_total hL h (by simp_all)
        rw [insertS_cons_gt (by simp_all) h]
        by_cases h1k : LtKey.klt k1 k' = true
        · rw [insertS_cons_lt h1k, insertS_cons_lt h21]
        · by_cases h1e : k1 = k'
          · rw [insertS_cons_eq hL h1e, insertS_cons_lt (h1e ▸ hA)]
          · rw [insertS_cons_gt (by simp_all) h1e, insertS_cons_lt hA]
    · by_cases hB : k2 = k'
      · subst hB
        rw [insertS_cons_eq hL rfl]
        by_cases h12 : LtKey.klt k1 k2 = true
        · rw [insertS_cons_lt h12, insertS_cons_lt h12,
            insertS_cons_gt (hL.1 _ _ h12) (Ne.symm h),
            insertS_cons_eq hL rfl]
        · have h21 : LtKey.klt k2 k1 = true := klt_total hL h (by simp_all)
          rw [insertS_cons_gt (by simp_all) h, insertS_cons_gt (by simp_all) h,
            insertS_cons_eq hL rfl]
      · rw [insertS_cons_gt (by simp_all) hB]
        by_cases h1k : LtKey.klt k1 k' = true
        · have h2k1 : LtKey.klt k2 k1 = false := by
            by_cases hx : LtKey.klt k2 k1 = true
            · have := hL.2.1 _ _ _ hx h1k
              simp_all
            · simp_all
          rw [insertS_cons_lt h1k, insertS_cons_lt h1k,
            insertS_cons_gt h2k1 (Ne.symm h), insertS_cons_gt (by simp_all) hB]
        · by_cases h1e : k1 = k'
          · subst h1e
            rw [insertS_cons_eq hL rfl, insertS_cons_eq hL rfl,
              insertS_cons_gt (by simp_all) (Ne.symm h)]
          · rw [insertS_cons_gt (by simp_all) h1e,
              insertS_cons_gt (by simp_all) h1e,
              insertS_cons_gt (by simp_all) hB, ih]

/-- Looking up the key just inserted. -/
theorem lookupS_insertS_self (hL : LtLaws K) (k : K) (v : V) :
    ∀ l : List (K × V), lookupS k (insertS k v l) = some v := by
  intro l
  induction l with
  | nil => simp [insertS, lookupS]
  | cons p t ih =>
    obtain ⟨k', v'⟩ := p
    by_cases hlt : LtKey.klt k k' = true
    · rw [insertS_cons_lt hlt]
      simp [lookupS]
    · by_cases he : k = k'
      · rw [insertS_cons_eq hL he]
        simp [lookupS]
      · rw [insertS_cons_gt (by simp_all) he]
        simp [lookupS, he, ih]

/-- Looking up another key after an insertion. -/
theorem lookupS_insertS_ne (hL : LtLaws K) {k k0 : K} (h : k0 ≠ k) (v : V) :
    ∀ l : List (K × V), lookupS k0 (insertS k v l) = lookupS k0 l := by
  intro l
  induction l with
  | nil => simp [insertS, lookupS, h]
  | cons p t ih =>
    obtain ⟨k', v'⟩ := p
    by_cases hlt : LtKey.klt k k' = true
    · rw [insertS_cons_lt hlt]
      simp [lookupS, h]
    · by_cases he : k = k'
      · rw [insertS_cons_eq hL he]
        subst he
        simp [lookupS, h]
      · rw [insertS_cons_gt (by simp_all) he]
        simp [lookupS, ih]

end SmapLemmas

/-- C4: for an unqualified name, `resolve_type_ref` classifies in exactly the
precedence order type-parameter, primitive, local decl, expanded import, and
otherwise fails with `LocalNotFound`; in particular a type parameter named
`Int32` resolves to `TypeParam`, not `Primitive`. -/
theorem c4_unqualified_precedence (ctx : ResolveCtx) (sn : ScopedName)
    (hq : sn.module_name = "") :
    (sn.name ∈ ctx.type_params →
      resolveTypeRef ctx sn = .ok (.typeParam sn.name)) ∧
    (sn.name ∉ ctx.type_params →
      ∀ p, prim_from_str sn.name = some p →
      resolveTypeRef ctx sn = .ok (.primitive p)) ∧
    (sn.name ∉ ctx.type_params →
      prim_from_str sn.name = none →
      containsS sn.name ctx.module0.decls = true →
      resolveTypeRef ctx sn = .ok (.localName sn.name)) ∧
    (sn.name ∉ ctx.type_params →
      prim_from_str sn.name = none →
      containsS sn.name ctx.module0.decls = false →
      ∀ sn1, lookupS sn.name ctx.expanded_imports = some sn1 →
      resolveTypeRef ctx sn = .ok (.scopedName sn1)) ∧
    (sn.name ∉ ctx.type_params →
      prim_from_str sn.name = none →
      containsS sn.name ctx.module0.decls = false →
      lookupS sn.name ctx.expanded_imports = none →
      resolveTypeRef ctx sn = .error (.localNotFound sn.name)) ∧
    (sn.name = "Int32" → sn.name ∈ ctx.type_params →
      resolveTypeRef ctx sn = .ok (.typeParam "Int32")) := by
  refine ⟨?_, ?_, ?_, ?_, ?_, ?_⟩
  · intro h1
    simp [resolveTypeRef, hq, h1]
  · intro h1 p h2
    simp [resolveTypeRef, hq, h1, h2]
  · intro h1 h2 h3
    simp [resolveTypeRef, hq, h1, h2, h3]
  · intro h1 h2 h3 sn1 h4
    simp [resolveTypeRef, hq, h1, h2, h3, h4]
  · intro h1 h2 h3 h4
    simp [resolveTypeRef, hq, h1, h2, h3, h4]
  · intro he h1
    rw [← he]
    simp [resolveTypeRef, hq, h1]

/-- Witness for C4: with the type parameter list `[Int32]` in scope, the
unqualified name `Int32` resolves to a type parameter, not a primitive. -/
theorem c4_unqualified_precedence_witness :
    resolveTypeRef (withTypeParams ctxX ["Int32"]) ⟨"", "Int32"⟩ =
      .ok (.typeParam "Int32") :=
  (c4_unqualified_precedence (withTypeParams ctxX ["Int32"]) ⟨"", "Int32"⟩
    rfl).1 (by decide)

/-- C5: for a qualified name, `resolve_type_ref` fails with `ModuleNotFound`
when the module is not in the resolver's map, fails with `DeclNotFound` when
the module exists but lacks the decl, and otherwise returns
`ScopedName` carrying exactly the input pair. -/
theorem c5_qualified (ctx : ResolveCtx) (sn : ScopedName)
    (hq : sn.module_name ≠ "") :
    (lookupS sn.module_name ctx.modules = none →
      resolveTypeRef ctx sn = .error .moduleNotFound) ∧
    (∀ m1, lookupS sn.module_name ctx.modules = some m1 →
      lookupS sn.name m1.decls = none →
      resolveTypeRef ctx sn = .error .declNotFound) ∧
    (∀ m1 d, lookupS sn.module_name ctx.modules = some m1 →
      lookupS sn.name m1.decls = some d →
      resolveTypeRef ctx sn = .ok (.scopedName sn)) := by
  refine ⟨?_, ?_, ?_⟩
  · intro h1
    simp [resolveTypeRef, hq, h1]
  · intro m1 h1 h2
    simp [resolveTypeRef, hq, h1, h2]
  · intro m1 d h1 h2
    simp [resolveTypeRef, hq, h1, h2]

/-- Witness for C5: a context holding `sys.types` with only a decl `T`
produces `DeclNotFound` for `sys.types.Missing` and `ModuleNotFound` for an
unknown module. -/
theorem c5_qualified_witness :
    resolveTypeRef ctxSys ⟨"sys.types", "Missing"⟩ = .error .declNotFound := by
  refine (c5_qualified ctxSys ⟨"sys.types", "Missing"⟩ (by decide)).2.1 _ rfl rfl

/-!  The algebra of the annotation binder. -/

section TryMod

variable {K V : Type} [DecidableEq K]

theorem tryModS_nil (k : K) (g : V → Option V) : tryModS k g [] = [] := rfl

theorem tryModS_cons (k : K) (g : V → Option V) (k' : K) (v' : V)
    (t : List (K × V)) :
    tryModS k g ((k', v') :: t) =
      if k = k' then (k', (g v').getD v') :: t
      else (k', v') :: tryModS k g t := by
  by_cases h : k = k'
  · simp only [tryModS, modifyS, if_pos h]
    cases g v' <;> simp
  · simp only [tryModS, modifyS, if_neg h]
    cases modifyS k g t <;> simp

theorem lookupS_tryModS (k k' : K) (g : V → Option V) (l : List (K × V)) :
    lookupS k' (tryModS k g l) =
      if k' = k then (lookupS k l).map (fun v => (g v).getD v)
      else lookupS k' l := by
  induction l with
  | nil => simp [tryModS_nil, lookupS]
  | cons p t ih =>
    obtain ⟨k0, v0⟩ := p
    rw [tryModS_cons]
    by_cases h : k = k0
    · subst h
      by_cases h' : k' = k
      · subst h'
        simp [lookupS]
      · simp [lookupS, h', if_neg h']
    · by_cases h' : k' = k0
      · subst h'
        simp only [if_neg h, lookupS, if_pos rfl]
        by_cases h2 : k' = k
        · exact absurd h2.symm h
        · simp [h2]
      · simp only [if_neg h, lookupS, if_neg h', ih]

theorem tryModS_comm_ne {k1 k2 : K} (h : k1 ≠ k2) (g1 g2 : V → Option V)
    (l : List (K × V)) :
    tryModS k1 g1 (tryModS k2 g2 l) = tryModS k2 g2 (tryModS k1 g1 l) := by
  induction l with
  | nil => simp [tryModS_nil]
  | cons p t ih =>
    obtain ⟨k0, v0⟩ := p
    by_cases h2 : k2 = k0
    · subst h2
      rw [tryModS_cons, if_pos rfl, tryModS_cons, if_neg h,
        tryModS_cons, if_neg h, tryModS_cons, if_pos rfl]
    · by_cases h1 : k1 = k0
      · subst h1
        rw [tryModS_cons, if_neg h2, tryModS_cons, if_pos rfl,
          tryModS_cons, if_pos rfl, tryModS_cons, if_neg h2]
      · rw [tryModS_cons, if_neg h2, tryModS_cons, if_neg h1,
          tryModS_cons, if_neg h1, tryModS_cons, if_neg h2, ih]

theorem tryModS_comm_same (k : K) (g1 g2 : V → Option V)
    (h : ∀ v : V, (g1 ((g2 v).getD v)).getD ((g2 v).getD v) =
      (g2 ((g1 v).getD v)).getD ((g1 v).getD v))
    (l : List (K × V)) :
    tryModS k g1 (tryModS k g2 l) = tryModS k g2 (tryModS k g1 l) := by
  induction l with
  | nil => simp [tryModS_nil]
  | cons p t ih =>
    obtain ⟨k0, v0⟩ := p
    by_cases hk : k = k0
    · rw [tryModS_cons, if_pos hk, tryModS_cons, if_pos hk,
        tryModS_cons, if_pos hk, tryModS_cons, if_pos hk, h v0]
    · rw [tryModS_cons, if_neg hk, tryModS_cons, if_neg hk,
        tryModS_cons, if_neg hk, tryModS_cons, if_neg hk, ih]

theorem modifyS_isSome (k : K) (g : V → Option V) (l : List (K × V)) :
    (modifyS k g l).isSome =
      (match lookupS k l with
       | some v => (g v).isSome
       | none => false) := by
  induction l with
  | nil => simp [modifyS, lookupS]
  | cons p t ih =>
    obtain ⟨k0, v0⟩ := p
    by_cases h : k = k0
    · subst h
      simp only [modifyS, if_pos rfl, lookupS, if_pos rfl]
      cases hg : g v0 <;> simp [hg]
    · simp only [modifyS, if_neg h, lookupS, if_neg h]
      cases hm : modifyS k g t <;> simp [← ih, hm]

theorem tryModS_of_modifyS {k : K} {g : V → Option V} {l l' : List (K × V)}
    (h : modifyS k g l = some l') : tryModS k g l = l' := by
  simp [tryModS, h]

end TryMod

theorem tryMFA_nil (f : Ident) (g : AnnMap → AnnMap) : tryMFA f g [] = [] := rfl

theorem tryMFA_cons (f : Ident) (g : AnnMap → AnnMap) (fld : Field TypeExpr0)
    (t : List (Field TypeExpr0)) :
    tryMFA f g (fld :: t) =
      if fld.name = f then { fld with anns := g fld.anns } :: t
      else fld :: tryMFA f g t := by
  by_cases h : fld.name = f
  · simp [tryMFA, modifyFieldAnns, h]
  · simp only [tryMFA, modifyFieldAnns, if_neg h]
    cases modifyFieldAnns f g t <;> simp

theorem tryMFA_comm_ne {f1 f2 : Ident} (h : f1 ≠ f2)
    (g1 g2 : AnnMap → AnnMap) (fs : List (Field TypeExpr0)) :
    tryMFA f1 g1 (tryMFA f2 g2 fs) = tryMFA f2 g2 (tryMFA f1 g1 fs) := by
  induction fs with
  | nil => simp [tryMFA_nil]
  | cons fld t ih =>
    by_cases h2 : fld.name = f2
    · have h1 : ¬ fld.name = f1 := by
        rw [h2]
        exact fun hx => h hx.symm
      rw [tryMFA_cons, if_pos h2, tryMFA_cons, if_neg h1,
        tryMFA_cons, if_neg h1, tryMFA_cons, if_pos h2]
    · by_cases h1 : fld.name = f1
      · rw [tryMFA_cons, if_neg h2, tryMFA_cons, if_pos h1,
          tryMFA_cons, if_pos h1, tryMFA_cons, if_neg h2]
      · rw [tryMFA_cons, if_neg h2, tryMFA_cons, if_neg h1,
          tryMFA_cons, if_neg h1, tryMFA_cons, if_neg h2, ih]

theorem tryMFA_comm_same (f : Ident) (g1 g2 : AnnMap → AnnMap)
    (h : ∀ a, g1 (g2 a) = g2 (g1 a)) (fs : List (Field TypeExpr0)) :
    tryMFA f g1 (tryMFA f g2 fs) = tryMFA f g2 (tryMFA f g1 fs) := by
  induction fs with
  | nil => simp [tryMFA_nil]
  | cons fld t ih =>
    by_cases hf : fld.name = f
    · rw [tryMFA_cons, if_pos hf, tryMFA_cons, if_pos hf,
        tryMFA_cons, if_pos hf, tryMFA_cons, if_pos hf]
      simp [h]
    · rw [tryMFA_cons, if_neg hf, tryMFA_cons, if_neg hf,
        tryMFA_cons, if_neg hf, tryMFA_cons, if_neg hf, ih]

theorem tryMFA_names (f : Ident) (g : AnnMap → AnnMap)
    (fs : List (Field TypeExpr0)) (f' : Ident) :
    (tryMFA f g fs).any (fun fl => fl.name = f') =
      fs.any (fun fl => fl.name = f') := by
  induction fs with
  | nil => simp [tryMFA_nil]
  | cons fld t ih =>
    rw [tryMFA_cons]
    by_cases h : fld.name = f
    · simp [h, List.any_cons]
    · simp [h, List.any_cons, ih]

theorem modifyFieldAnns_isSome (f : Ident) (g : AnnMap → AnnMap)
    (fs : List (Field TypeExpr0)) :
    (modifyFieldAnns f g fs).isSome = fs.any (fun fl => fl.name = f) := by
  induction fs with
  | nil => simp [modifyFieldAnns]
  | cons fld t ih =>
    by_cases h : fld.name = f
    · simp [modifyFieldAnns, h]
    · simp only [modifyFieldAnns, if_neg h, List.any_cons]
      cases hm : modifyFieldAnns f g t <;> simp [← ih, hm, h]

theorem tryInsertAnn_module (sn : ScopedName) (v : Json) (m : Module0) :
    tryInsertAnn ⟨.module, sn, v⟩ m = { m with anns := insertS sn v m.anns } :=
  rfl

theorem tryInsertAnn_decl (d : Ident) (sn : ScopedName) (v : Json) (m : Module0) :
    tryInsertAnn ⟨.decl d, sn, v⟩ m =
      { m with decls := tryModS d (declAnnsG (insertS sn v)) m.decls } := by
  unfold tryInsertAnn modifyAnnsRef
  cases hm : modifyS d (declAnnsG (insertS sn v)) m.decls with
  | some l => simp [tryModS, hm]
  | none => simp [tryModS, hm]

theorem tryInsertAnn_field (d f : Ident) (sn : ScopedName) (v : Json)
    (m : Module0) :
    tryInsertAnn ⟨.field (d, f), sn, v⟩ m =
      { m with decls := tryModS d (fieldAnnsG f (insertS sn v)) m.decls } := by
  unfold tryInsertAnn modifyAnnsRef
  cases hm : modifyS d (fieldAnnsG f (insertS sn v)) m.decls with
  | some l => simp [tryModS, hm]
  | none => simp [tryModS, hm]

theorem tryFieldAnnsG (fn : Ident) (g : AnnMap → AnnMap) (dd : Decl0) :
    (fieldAnnsG fn g dd).getD dd =
      (match dd.type_ with
       | .struct_ s =>
         { dd with type_ := .struct_ { s with fields := tryMFA fn g s.fields } }
       | .union_ u =>
         { dd with type_ := .union_ { u with fields := tryMFA fn g u.fields } }
       | _ => dd) := by
  cases ht : dd.type_ with
  | struct_ s =>
    simp only [fieldAnnsG, ht, tryMFA]
    cases hm : modifyFieldAnns fn g s.fields with
    | some fs => simp
    | none =>
      simp
      exact show dd = { dd with type_ := DeclType.struct_ s } by rw [← ht]
  | union_ u =>
    simp only [fieldAnnsG, ht, tryMFA]
    cases hm : modifyFieldAnns fn g u.fields with
    | some fs => simp
    | none =>
      simp
      exact show dd = { dd with type_ := DeclType.union_ u } by rw [← ht]
  | type_ t => simp [fieldAnnsG, ht]
  | newtype n => simp [fieldAnnsG, ht]

theorem declAnnsG_field_comm (sn : ScopedName) (v : Json) (fn : Ident)
    (g : AnnMap → AnnMap) (dd : Decl0) :
    ((declAnnsG (insertS sn v) ((fieldAnnsG fn g dd).getD dd)).getD
        ((fieldAnnsG fn g dd).getD dd)) =
      ((fieldAnnsG fn g ((declAnnsG (insertS sn v) dd).getD dd)).getD
        ((declAnnsG (insertS sn v) dd).getD dd)) := by
  rw [tryFieldAnnsG]
  have h1 : (declAnnsG (insertS sn v) dd).getD dd =
      { dd with anns := insertS sn v dd.anns } := rfl
  rw [h1, tryFieldAnnsG]
  cases ht : dd.type_ <;> simp [declAnnsG, ht]

theorem fieldAnnsG_comm_ne (f1 f2 : Ident) (h : f1 ≠ f2)
    (g1 g2 : AnnMap → AnnMap) (dd : Decl0) :
    ((fieldAnnsG f1 g1 ((fieldAnnsG f2 g2 dd).getD dd)).getD
        ((fieldAnnsG f2 g2 dd).getD dd)) =
      ((fieldAnnsG f2 g2 ((fieldAnnsG f1 g1 dd).getD dd)).getD
        ((fieldAnnsG f1 g1 dd).getD dd)) := by
  rw [tryFieldAnnsG, tryFieldAnnsG]
  cases ht : dd.type_ <;>
    simp [tryFieldAnnsG, ht, tryMFA_comm_ne h]

theorem fieldAnnsG_comm_same (f : Ident) (g1 g2 : AnnMap → AnnMap)
    (hg : ∀ a, g1 (g2 a) = g2 (g1 a)) (dd : Decl0) :
    ((fieldAnnsG f g1 ((fieldAnnsG f g2 dd).getD dd)).getD
        ((fieldAnnsG f g2 dd).getD dd)) =
      ((fieldAnnsG f g2 ((fieldAnnsG f g1 dd).getD dd)).getD
        ((fieldAnnsG f g1 dd).getD dd)) := by
  rw [tryFieldAnnsG, tryFieldAnnsG]
  cases ht : dd.type_ <;>
    simp [tryFieldAnnsG, ht, tryMFA_comm_same _ _ _ hg]

/-- Two explicit-annotation bind steps commute when their (target, key)
pairs differ. -/
theorem tryInsertAnn_comm (ea1 ea2 : ExplicitAnn)
    (h : (ea1.refr, ea1.scoped_name) ≠ (ea2.refr, ea2.scoped_name))
    (m : Module0) :
    tryInsertAnn ea1 (tryInsertAnn ea2 m) = tryInsertAnn ea2 (tryInsertAnn ea1 m) := by
  obtain ⟨r1, sn1, v1⟩ := ea1
  obtain ⟨r2, sn2, v2⟩ := ea2
  simp only at h
  cases r1 with
  | module =>
    cases r2 with
    | module =>
      have hsn : sn1 ≠ sn2 := by
        intro he
        exact h (by rw [he])
      rw [tryInsertAnn_module, tryInsertAnn_module, tryInsertAnn_module,
        tryInsertAnn_module]
      simp [insertS_comm ltLaws_sn hsn]
    | decl d2 =>
      rw [tryInsertAnn_decl, tryInsertAnn_module, tryInsertAnn_module,
        tryInsertAnn_decl]
    | field df2 =>
      obtain ⟨d2, f2⟩ := df2
      rw [tryInsertAnn_field, tryInsertAnn_module, tryInsertAnn_module,
        tryInsertAnn_field]
  | decl d1 =>
    cases r2 with
    | module =>
      rw [tryInsertAnn_module, tryInsertAnn_decl, tryInsertAnn_decl,
        tryInsertAnn_module]
    | decl d2 =>
      rw [tryInsertAnn_decl, tryInsertAnn_decl, tryInsertAnn_decl,
        tryInsertAnn_decl]
      by_cases hd : d1 = d2
      · subst hd
        have hsn : sn1 ≠ sn2 := by
          intro he
          exact h (by rw [he])
        simp only
        rw [tryModS_comm_same]
        intro dd
        simp [declAnnsG, insertS_comm ltLaws_sn hsn]
      · simp only
        rw [tryModS_comm_ne hd]
    | field df2 =>
      obtain ⟨d2, f2⟩ := df2
      rw [tryInsertAnn_field, tryInsertAnn_decl, tryInsertAnn_decl,
        tryInsertAnn_field]
      by_cases hd : d1 = d2
      · subst hd
        simp only
        rw [tryModS_comm_same]
        intro dd
        exact declAnnsG_field_comm sn1 v1 f2 (insertS sn2 v2) dd
      · simp only
        rw [tryModS_comm_ne hd]
  | field df1 =>
    obtain ⟨d1, f1⟩ := df1
    cases r2 with
    | module =>
      rw [tryInsertAnn_module, tryInsertAnn_field, tryInsertAnn_field,
        tryInsertAnn_module]
    | decl d2 =>
      rw [tryInsertAnn_decl, tryInsertAnn_field, tryInsertAnn_field,
        tryInsertAnn_decl]
      by_cases hd : d1 = d2
      · subst hd
        simp only
        rw [tryModS_comm_same]
        intro dd
        exact (declAnnsG_field_comm sn2 v2 f1 (insertS sn1 v1) dd).symm
      · simp only
        rw [tryModS_comm_ne (fun he => hd he.symm)]
    | field df2 =>
      obtain ⟨d2, f2⟩ := df2
      rw [tryInsertAnn_field, tryInsertAnn_field, tryInsertAnn_field,
        tryInsertAnn_field]
      by_cases hd : d1 = d2
      · subst hd
        by_cases hf : f1 = f2
        · subst hf
          have hsn : sn1 ≠ sn2 := by
            intro he
            exact h (by rw [he])
          simp only
          rw [tryModS_comm_same]
          intro dd
          exact fieldAnnsG_comm_same f1 _ _
            (fun a => insertS_comm ltLaws_sn hsn v1 v2 a) dd
        · simp only
          rw [tryModS_comm_same]
          intro dd
          exact fieldAnnsG_comm_ne f1 f2 hf _ _ dd
      · simp only
        rw [tryModS_comm_ne hd]

theorem fieldAnnsG_isSome (f : Ident) (g : AnnMap → AnnMap) (dd : Decl0) :
    (fieldAnnsG f g dd).isSome =
      (match dd.type_ with
       | .struct_ s => s.fields.any (fun fl => fl.name = f)
       | .union_ u => u.fields.any (fun fl => fl.name = f)
       | _ => false) := by
  cases ht : dd.type_ <;> simp [fieldAnnsG, ht, modifyFieldAnns_isSome]

/-- The domain of `find_annotations_ref` is exactly `hasAnnsTarget`. -/
theorem modifyAnnsRef_isSome (ear : ExplicitAnnRef) (g : AnnMap → AnnMap)
    (m : Module0) :
    (modifyAnnsRef ear g m).isSome = hasAnnsTarget m ear := by
  cases ear with
  | module => rfl
  | decl d =>
    have h := modifyS_isSome d (declAnnsG g) m.decls
    simp only [modifyAnnsRef, hasAnnsTarget, containsS]
    cases hm : modifyS d (declAnnsG g) m.decls <;>
      cases hl : lookupS d m.decls <;> simp_all [declAnnsG]
  | field df =>
    obtain ⟨d, f⟩ := df
    have h := modifyS_isSome d (fieldAnnsG f g) m.decls
    simp only [modifyAnnsRef, hasAnnsTarget]
    cases hm : modifyS d (fieldAnnsG f g) m.decls <;>
      cases hl : lookupS d m.decls <;>
        simp_all [fieldAnnsG_isSome]

/-- Binding one explicit annotation leaves the set of resolvable targets
unchanged: inserting into an annotation map touches no decl name, no decl
body shape and no field name. -/
theorem hasAnnsTarget_tryInsertAnn (ea : ExplicitAnn) (m : Module0)
    (r' : ExplicitAnnRef) :
    hasAnnsTarget (tryInsertAnn ea m) r' = hasAnnsTarget m r' := by
  obtain ⟨r, sn, v⟩ := ea
  cases r with
  | module =>
    cases r' <;> simp [hasAnnsTarget, tryInsertAnn_module]
  | decl d =>
    rw [tryInsertAnn_decl]
    cases r' with
    | module => rfl
    | decl d' =>
      simp only [hasAnnsTarget, containsS]
      rw [lookupS_tryModS]
      by_cases hd : d' = d
      · subst hd
        cases hl : lookupS d' m.decls <;> simp
      · simp [hd]
    | field df' =>
      obtain ⟨d', f'⟩ := df'
      simp only [hasAnnsTarget]
      rw [lookupS_tryModS]
      by_cases hd : d' = d
      · subst hd
        cases hl : lookupS d' m.decls with
        | none => simp
        | some dd => simp [declAnnsG]
      · simp [hd]
  | field df =>
    obtain ⟨d, f⟩ := df
    rw [tryInsertAnn_field]
    cases r' with
    | module => rfl
    | decl d' =>
      simp only [hasAnnsTarget, containsS]
      rw [lookupS_tryModS]
      by_cases hd : d' = d
      · subst hd
        cases hl : lookupS d' m.decls <;> simp
      · simp [hd]
    | field df' =>
      obtain ⟨d', f'⟩ := df'
      simp only [hasAnnsTarget]
      rw [lookupS_tryModS]
      by_cases hd : d' = d
      · subst hd
        cases hl : lookupS d' m.decls with
        | none => simp
        | some dd =>
          simp only [if_true, Option.map_some', Option.getD_some]
          rw [tryFieldAnnsG]
          cases ht : dd.type_ <;> simp [ht, tryMFA_names]
      · simp [hd]

/-- The module component of the binder loop is the fold of the totalised
bind step. -/
theorem applyEAList_fst (eas : List ExplicitAnn) :
    ∀ (m : Module0) (u : List ExplicitAnnRef),
      (applyEAList m u eas).1 = eas.foldl (fun m ea => tryInsertAnn ea m) m := by
  induction eas with
  | nil => intro m u; rfl
  | cons ea t ih =>
    intro m u
    simp only [applyEAList, List.foldl_cons]
    cases hm : modifyAnnsRef ea.refr (insertS ea.scoped_name ea.value) m with
    | some m' =>
      rw [ih]
      have : tryInsertAnn ea m = m' := by simp [tryInsertAnn, hm]
      rw [this]
    | none =>
      rw [ih]
      have : tryInsertAnn ea m = m := by simp [tryInsertAnn, hm]
      rw [this]

/-- The unresolved component of the binder loop is the appended list of the
target references whose targets are missing in the original module. -/
theorem applyEAList_snd (eas : List ExplicitAnn) :
    ∀ (m : Module0) (u : List ExplicitAnnRef),
      (applyEAList m u eas).2 =
        u ++ (eas.filter (fun ea => !(hasAnnsTarget m ea.refr))).map
          (fun ea => ea.refr) := by
  induction eas with
  | nil => intro m u; simp [applyEAList]
  | cons ea t ih =>
    intro m u
    simp only [applyEAList]
    cases hm : modifyAnnsRef ea.refr (insertS ea.scoped_name ea.value) m with
    | some m' =>
      have htar : hasAnnsTarget m ea.refr = true := by
        rw [← modifyAnnsRef_isSome ea.refr (insertS ea.scoped_name ea.value) m, hm]
        rfl
      have hme : tryInsertAnn ea m = m' := by simp [tryInsertAnn, hm]
      rw [ih]
      have hcong : ∀ ea' ∈ t,
          (!(hasAnnsTarget m' ea'.refr)) = (!(hasAnnsTarget m ea'.refr)) := by
        intro ea' _
        rw [← hme, hasAnnsTarget_tryInsertAnn]
      rw [List.filter_congr hcong, List.filter_cons, htar]
      simp
    | none =>
      have htar : hasAnnsTarget m ea.refr = false := by
        rw [← modifyAnnsRef_isSome ea.refr (insertS ea.scoped_name ea.value) m, hm]
        rfl
      rw [ih, List.filter_cons, htar]
      simp

/-- Success characterisation of the binder: a raw module binds to exactly
the fold of the totalised steps, precisely when every record's target
resolves in the original module. -/
theorem applyEA_eq_ok_iff (m0 : Module0) (eas : List ExplicitAnn) (m : Module0) :
    applyExplicitAnns (m0, eas) = .ok m ↔
      ((∀ ea ∈ eas, hasAnnsTarget m0 ea.refr = true) ∧
        m = eas.foldl (fun m ea => tryInsertAnn ea m) m0) := by
  have hfst := applyEAList_fst eas m0 []
  have hsnd := applyEAList_snd eas m0 []
  simp only [applyExplicitAnns]
  by_cases hemp : (applyEAList m0 [] eas).2.isEmpty
  · rw [if_pos hemp]
    have hall : ∀ ea ∈ eas, hasAnnsTarget m0 ea.refr = true := by
      intro ea hea
      rw [hsnd] at hemp
      simp only [List.nil_append, List.isEmpty_eq_true, List.map_eq_nil_iff,
        List.filter_eq_nil_iff] at hemp
      have := hemp ea hea
      simp_all
    constructor
    · intro h
      cases h
      exact ⟨hall, hfst⟩
    · intro ⟨_, hm⟩
      rw [hm, ← hfst]
  · rw [if_neg hemp]
    constructor
    · intro h
      cases h
    · intro ⟨hall, _⟩
      exfalso
      apply hemp
      rw [hsnd]
      simp only [List.nil_append, List.isEmpty_eq_true, List.map_eq_nil_iff,
        List.filter_eq_nil_iff]
      intro ea hea
      simp [hall ea hea]

/-- Error characterisation of the binder: the unresolved list is exactly the
list of failing target references, in record order. -/
theorem applyEA_error_eq (m0 : Module0) (eas : List ExplicitAnn)
    (e : UnresolvedExplicitAnns) (h : applyExplicitAnns (m0, eas) = .error e) :
    e.unresolved =
      (eas.filter (fun ea => !(hasAnnsTarget m0 ea.refr))).map
        (fun ea => ea.refr) := by
  have hsnd := applyEAList_snd eas m0 []
  simp only [applyExplicitAnns] at h
  by_cases hemp : (applyEAList m0 [] eas).2.isEmpty
  · rw [if_pos hemp] at h
    cases h
  · rw [if_neg hemp] at h
    cases h
    simpa using hsnd

/-- C6: apply_explicit_annotations returns Ok exactly when every record's
target resolves; otherwise the single error lists the target reference of
every failing record, not only the first. -/
theorem c6_binder_all_or_nothing (m0 : Module0) (eas : List ExplicitAnn) :
    ((∃ m, applyExplicitAnns (m0, eas) = .ok m) ↔
      ∀ ea ∈ eas, hasAnnsTarget m0 ea.refr = true) ∧
    (∀ e, applyExplicitAnns (m0, eas) = .error e →
      e.unresolved =
        (eas.filter (fun ea => !(hasAnnsTarget m0 ea.refr))).map
          (fun ea => ea.refr)) := by
  constructor
  · constructor
    · intro ⟨m, hm⟩
      exact ((applyEA_eq_ok_iff m0 eas m).mp hm).1
    · intro hall
      exact ⟨_, (applyEA_eq_ok_iff m0 eas _).mpr ⟨hall, rfl⟩⟩
  · intro e he
    exact applyEA_error_eq m0 eas e he

/-- Witness for C6: binding the three bad records of spec §8 scenario (2)
fails, reporting exactly the three failing references in order. -/
theorem c6_binder_all_or_nothing_witness :
    (UnresolvedExplicitAnns.mk
        [.decl ("A"), .field ("A", "z"), .field ("Y", "q")]).unresolved =
      (easBAD.filter (fun ea => !(hasAnnsTarget modX ea.refr))).map
        (fun ea => ea.refr) :=
  (c6_binder_all_or_nothing modX easBAD).2 _ rfl

/-- C7: a Field target binds exactly when the named decl is a Struct or
Union holding a field of that name; a Field reference into a type alias or
newtype is always unresolved, whatever the field name. -/
theorem c7_field_target (m0 : Module0) (d f : Ident) (g : AnnMap → AnnMap) :
    ((modifyAnnsRef (.field (d, f)) g m0).isSome = true ↔
      (∃ dd, lookupS d m0.decls = some dd ∧
        ((∃ s, dd.type_ = .struct_ s ∧
            s.fields.any (fun fl => fl.name = f) = true) ∨
         (∃ u, dd.type_ = .union_ u ∧
            u.fields.any (fun fl => fl.name = f) = true)))) ∧
    (∀ dd, lookupS d m0.decls = some dd →
      ((∃ t, dd.type_ = .type_ t) ∨ (∃ n, dd.type_ = .newtype n)) →
      modifyAnnsRef (.field (d, f)) g m0 = none) := by
  have hiso := modifyAnnsRef_isSome (.field (d, f)) g m0
  constructor
  · rw [hiso]
    simp only [hasAnnsTarget]
    cases hl : lookupS d m0.decls with
    | none => simp
    | some dd =>
      cases ht : dd.type_ with
      | struct_ s =>
        simp only [ht]
        constructor
        · intro h
          exact ⟨dd, rfl, .inl ⟨s, ht, h⟩⟩
        · intro ⟨dd', hdd', h⟩
          cases hdd'
          rcases h with ⟨s', hs', h⟩ | ⟨u', hu', _⟩
          · rw [ht] at hs'
            cases hs'
            exact h
          · rw [ht] at hu'
            cases hu'
      | union_ u =>
        simp only [ht]
        constructor
        · intro h
          exact ⟨dd, rfl, .inr ⟨u, ht, h⟩⟩
        · intro ⟨dd', hdd', h⟩
          cases hdd'
          rcases h with ⟨s', hs', _⟩ | ⟨u', hu', h⟩
          · rw [ht] at hs'
            cases hs'
          · rw [ht] at hu'
            cases hu'
            exact h
      | type_ t =>
        simp only [ht]
        constructor
        · intro h
          cases h
        · intro ⟨dd', hdd', h⟩
          cases hdd'
          rcases h with ⟨s', hs', _⟩ | ⟨u', hu', _⟩ <;> rw [ht] at * <;> simp_all
      | newtype n =>
        simp only [ht]
        constructor
        · intro h
          cases h
        · intro ⟨dd', hdd', h⟩
          cases hdd'
          rcases h with ⟨s', hs', _⟩ | ⟨u', hu', _⟩ <;> rw [ht] at * <;> simp_all
  · intro dd hdd hbody
    have : hasAnnsTarget m0 (.field (d, f)) = false := by
      simp only [hasAnnsTarget, hdd]
      rcases hbody with ⟨t, ht⟩ | ⟨n, hn⟩ <;> simp_all
    rw [this] at hiso
    cases hmm : modifyAnnsRef (.field (d, f)) g m0
    · rfl
    · rw [hmm] at hiso
      cases hiso

/-- Witness for C7: in the module with the alias decl `AL`, the record
targeting field `z` of `AL` never binds, while `Y::z` does bind. -/
theorem c7_field_target_witness :
    modifyAnnsRef (.field ("AL", "z")) (insertS ⟨"", "G"⟩ (Json.num 8)) modXA =
      none :=
  (c7_field_target modXA "AL" "z" (insertS ⟨"", "G"⟩ (Json.num 8))).2
    declAlias rfl (.inl ⟨_, rfl⟩)

/-- C10: a Module-target record always binds, so `Module` never appears in
the unresolved list of an error. -/
theorem c10_module_target_always_binds (m0 : Module0) (eas : List ExplicitAnn) :
    (∀ (g : AnnMap → AnnMap) (m : Module0),
      modifyAnnsRef .module g m = some { m with anns := g m.anns }) ∧
    (∀ e, applyExplicitAnns (m0, eas) = .error e →
      ∀ r ∈ e.unresolved, r ≠ .module) := by
  constructor
  · intro g m
    rfl
  · intro e he r hr
    rw [applyEA_error_eq m0 eas e he] at hr
    simp only [List.mem_map, List.mem_filter] at hr
    obtain ⟨ea, ⟨_, hfail⟩, hrefr⟩ := hr
    intro hmod
    rw [← hrefr] at hmod
    rw [hmod] at hfail
    simp [hasAnnsTarget] at hfail

/-- Witness for C10: in the failing bind of spec §8 scenario (2), none of
the three unresolved references is the module reference. -/
theorem c10_module_target_always_binds_witness :
    ∀ r ∈ (UnresolvedExplicitAnns.mk
        [.decl ("A"), .field ("A", "z"), .field ("Y", "q")]).unresolved,
      r ≠ ExplicitAnnRef.module :=
  (c10_module_target_always_binds modX easBAD).2 _ rfl

/-- C8: binding is order-independent: across any permutation of an
explicit-annotation list with pairwise-distinct (target, key) pairs, success
is invariant and the successfully bound module is identical. -/
theorem c8_bind_order_independent (m0 : Module0) (l l' : List ExplicitAnn)
    (hperm : l.Perm l')
    (hdist : l.Pairwise (fun a b => (a.refr, a.scoped_name) ≠ (b.refr, b.scoped_name))) :
    ((∃ m, applyExplicitAnns (m0, l) = .ok m) ↔
      (∃ m, applyExplicitAnns (m0, l') = .ok m)) ∧
    (∀ m, applyExplicitAnns (m0, l) = .ok m →
      applyExplicitAnns (m0, l') = .ok m) := by
  have hcomm : ∀ x ∈ l, ∀ y ∈ l, ∀ z : Module0,
      tryInsertAnn y (tryInsertAnn x z) = tryInsertAnn x (tryInsertAnn y z) := by
    intro x hx y hy z
    by_cases hxy : x = y
    · rw [hxy]
    · have hsym : Symmetric
          (fun a b : ExplicitAnn =>
            (a.refr, a.scoped_name) ≠ (b.refr, b.scoped_name)) := by
        intro a b hab
        exact fun he => hab he.symm
      have := hdist.forall hsym
      exact tryInsertAnn_comm y x (this hy hx (fun he => hxy he.symm)) z
  have hfold : l.foldl (fun m ea => tryInsertAnn ea m) m0 =
      l'.foldl (fun m ea => tryInsertAnn ea m) m0 := by
    exact hperm.foldl_eq' (fun x hx y hy z => hcomm x hx y hy z) m0
  have hmem : ∀ ea, ea ∈ l ↔ ea ∈ l' := fun ea => hperm.mem_iff
  constructor
  · constructor
    · intro ⟨m, hm⟩
      obtain ⟨hall, _⟩ := (applyEA_eq_ok_iff m0 l m).mp hm
      refine ⟨_, (applyEA_eq_ok_iff m0 l' _).mpr ⟨?_, rfl⟩⟩
      intro ea hea
      exact hall ea ((hmem ea).mpr hea)
    · intro ⟨m, hm⟩
      obtain ⟨hall, _⟩ := (applyEA_eq_ok_iff m0 l' m).mp hm
      refine ⟨_, (applyEA_eq_ok_iff m0 l _).mpr ⟨?_, rfl⟩⟩
      intro ea hea
      exact hall ea ((hmem ea).mp hea)
  · intro m hm
    obtain ⟨hall, hval⟩ := (applyEA_eq_ok_iff m0 l m).mp hm
    refine (applyEA_eq_ok_iff m0 l' m).mpr ⟨?_, ?_⟩
    · intro ea hea
      exact hall ea ((hmem ea).mpr hea)
    · rw [hval, hfold]

/-- Witness for C8: swapping the first two records of the happy-path list
binds to the same module. -/
theorem c8_bind_order_independent_witness :
    applyExplicitAnns (modX, easOKswap) = .ok modXBound :=
  (c8_bind_order_independent modX easOK easOKswap
    (List.Perm.swap _ _ _) (by decide)).2 modXBound rfl

/-- C3 counterexample: the same field annotation key `T` is classified
differently depending on whether `T` is a type parameter of the enclosing
decl: under the parameter scope it resolves to `TypeParam` and the decl
fails with `NoDeclForAnnotation`; without the parameter it resolves to
the imported name `M.T` and the decl succeeds.  The two decls differ in their
type-parameter list. -/
theorem c3_field_ann_counterexample :
    resolveField (withTypeParams ctxX ["T"]) fieldZT = .error .noDeclForAnn ∧
    resolveField (withTypeParams ctxX []) fieldZT = .ok fieldZT1 ∧
    resolveDecl ctxX (declBox ["T"]) = .error .noDeclForAnn ∧
    resolveDecl ctxX (declBox []) = .ok declBoxResolved :=
  ⟨rfl, rfl, rfl, rfl⟩

/-- Elementwise inversion of `resolve_fields`. -/
theorem resolveFields_forall2 (c : ResolveCtx) :
    ∀ fs fs1, resolveFields c fs = .ok fs1 →
      List.Forall₂ (fun f0 f1 => resolveField c f0 = .ok f1) fs fs1 := by
  intro fs
  induction fs with
  | nil =>
    intro fs1 h
    simp only [resolveFields] at h
    cases h
    exact List.Forall₂.nil
  | cons f t ih =>
    intro fs1 h
    simp only [resolveFields] at h
    cases hf : resolveField c f with
    | error e => rw [hf] at h; cases h
    | ok f1 =>
      rw [hf] at h
      cases ht : resolveFields c t with
      | error e => rw [ht] at h; cases h
      | ok t1 =>
        rw [ht] at h
        cases h
        exact List.Forall₂.cons hf (ih t1 ht)

/-- A successfully resolved field has its annotations resolved in the same
context as its type expression. -/
theorem resolveField_anns (c : ResolveCtx) (f0 : Field TypeExpr0)
    (f1 : Field TypeExpr1) (h : resolveField c f0 = .ok f1) :
    resolveAnns c f0.anns = .ok f1.anns := by
  simp only [resolveField] at h
  cases hte : resolveTypeExpr c f0.type_expr with
  | error e => rw [hte] at h; cases h
  | ok te1 =>
    rw [hte] at h
    cases ha : resolveAnns c f0.anns with
    | error e => rw [ha] at h; cases h
    | ok anns1 =>
      rw [ha] at h
      cases h
      rfl

/-- C3 amended: the decl's own annotations are resolved under the incoming
(empty) type-parameter scope, never consulting the decl's parameters, while
the annotations of every field of a Struct or Union are resolved under the
scope extended with the decl's type parameters. -/
theorem c3_ann_scopes (ctx : ResolveCtx) (d : Decl0) (d1 : Decl1)
    (h : resolveDecl ctx d = .ok d1) :
    resolveAnns ctx d.anns = .ok d1.anns ∧
    (∀ s, d.type_ = .struct_ s →
      ∃ s1, d1.type_ = .struct_ s1 ∧
        List.Forall₂ (fun f0 f1 =>
          resolveAnns (withTypeParams ctx s.type_params) f0.anns = .ok f1.anns)
          s.fields s1.fields) ∧
    (∀ u, d.type_ = .union_ u →
      ∃ u1, d1.type_ = .union_ u1 ∧
        List.Forall₂ (fun f0 f1 =>
          resolveAnns (withTypeParams ctx u.type_params) f0.anns = .ok f1.anns)
          u.fields u1.fields) := by
  simp only [resolveDecl] at h
  cases hd : d.type_ with
  | struct_ s =>
    simp only [hd] at h
    cases hb : resolveStruct ctx s with
    | error e => rw [hb] at h; cases h
    | ok dtype =>
      rw [hb] at h
      cases ha : resolveAnns ctx d.anns with
      | error e => rw [ha] at h; cases h
      | ok anns1 =>
        rw [ha] at h
        cases h
        refine ⟨rfl, ?_, ?_⟩
        · intro s' hs'
          cases hs'
          simp only [resolveStruct] at hb
          cases hf : resolveFields (withTypeParams ctx s.type_params) s.fields with
          | error e => rw [hf] at hb; cases hb
          | ok fields1 =>
            rw [hf] at hb
            cases hb
            refine ⟨_, rfl, ?_⟩
            exact (resolveFields_forall2 _ _ _ hf).imp
              (fun _ _ hff => resolveField_anns _ _ _ hff)
        · intro u' hu'
          cases hu'
  | union_ u =>
    simp only [hd] at h
    cases hb : resolveUnion ctx u with
    | error e => rw [hb] at h; cases h
    | ok dtype =>
      rw [hb] at h
      cases ha : resolveAnns ctx d.anns with
      | error e => rw [ha] at h; cases h
      | ok anns1 =>
        rw [ha] at h
        cases h
        refine ⟨rfl, ?_, ?_⟩
        · intro s' hs'
          cases hs'
        · intro u' hu'
          cases hu'
          simp only [resolveUnion] at hb
          cases hf : resolveFields (withTypeParams ctx u.type_params) u.fields with
          | error e => rw [hf] at hb; cases hb
          | ok fields1 =>
            rw [hf] at hb
            cases hb
            refine ⟨_, rfl, ?_⟩
            exact (resolveFields_forall2 _ _ _ hf).imp
              (fun _ _ hff => resolveField_anns _ _ _ hff)
  | type_ t =>
    simp only [hd] at h
    cases hb : resolveTypeAlias ctx t with
    | error e => rw [hb] at h; cases h
    | ok dtype =>
      rw [hb] at h
      cases ha : resolveAnns ctx d.anns with
      | error e => rw [ha] at h; cases h
      | ok anns1 =>
        rw [ha] at h
        cases h
        refine ⟨rfl, ?_, ?_⟩
        · intro s' hs'
          cases hs'
        · intro u' hu'
          cases hu'
  | newtype n =>
    simp only [hd] at h
    cases hb : resolveNewtype ctx n with
    | error e => rw [hb] at h; cases h
    | ok dtype =>
      rw [hb] at h
      cases ha : resolveAnns ctx d.anns with
      | error e => rw [ha] at h; cases h
      | ok anns1 =>
        rw [ha] at h
        cases h
        refine ⟨rfl, ?_, ?_⟩
        · intro s' hs'
          cases hs'
        · intro u' hu'
          cases hu'

/-- Witness for the amended C3: the decl-level annotation key `T` of
`declBoxD [T]` resolves to the import `M.T` even though `T` is a type
parameter of the decl. -/
theorem c3_ann_scopes_witness :
    resolveAnns ctxX (declBoxD ["T"]).anns = .ok declBoxDResolved.anns :=
  (c3_ann_scopes ctxX (declBoxD ["T"]) declBoxDResolved rfl).1

/-- C9 counterexample: a `ModuleName` import qualifies the contributed
entries with the stored module's own recorded name, not the map key under
which it is held: with the module named `N` stored under key `M`, importing
`M` maps `d` to `N.d`, not `M.d`. -/
theorem c9_counterexample :
    lookupS ("d") (getExpandedImports [("M", modN1)] modImpM) =
      some ⟨"N", "d"⟩ ∧
    (⟨"N", "d"⟩ : ScopedName) ≠ ⟨"M", "d"⟩ :=
  ⟨rfl, by decide⟩

/-- Keys present in an association list. -/
theorem lookupS_isSome_iff {K V : Type} [DecidableEq K] (k : K) :
    ∀ l : List (K × V), (lookupS k l).isSome = true ↔ k ∈ l.map Prod.fst := by
  intro l
  induction l with
  | nil => simp [lookupS]
  | cons p t ih =>
    obtain ⟨k0, v0⟩ := p
    by_cases h : k = k0
    · subst h
      simp [lookupS]
    · simp [lookupS, h, ih]

/-- Looking up through the decl fold of a `ModuleName` import. -/
theorem declsFold_lookup (mname : ModuleName) :
    ∀ (entries : List (Ident × Decl1)) (acc : List (Ident × ScopedName))
      (k : Ident),
      lookupS k (entries.foldl
          (fun a kv => insertS kv.1 ⟨mname, kv.1⟩ a) acc) =
        if k ∈ entries.map Prod.fst then some ⟨mname, k⟩
        else lookupS k acc := by
  intro entries
  induction entries with
  | nil => simp
  | cons kv t ih =>
    intro acc k
    obtain ⟨k0, d0⟩ := kv
    simp only [List.foldl_cons, List.map_cons, List.mem_cons]
    rw [ih]
    by_cases hk : k = k0
    · subst hk
      simp [lookupS_insertS_self ltLaws_string]
    · by_cases hmem : k ∈ t.map Prod.fst
      · simp [hmem, hk]
      · simp [hmem, hk, lookupS_insertS_ne ltLaws_string hk]

/-- One step of import expansion, as a map transformation. -/
theorem getExpandedImports_append (modules : List (ModuleName × Module1))
    (m : Module0) (is : List Import) (i : Import) :
    getExpandedImports modules { m with imports := is ++ [i] } =
      (match i with
       | .scopedName sn =>
         insertS sn.name sn (getExpandedImports modules { m with imports := is })
       | .moduleName mn =>
         match lookupS mn modules with
         | some m1 =>
           m1.decls.foldl (fun a kv => insertS kv.1 ⟨m1.name, kv.1⟩ a)
             (getExpandedImports modules { m with imports := is })
         | none => getExpandedImports modules { m with imports := is }) := by
  simp only [getExpandedImports, List.foldl_append, List.foldl_cons,
    List.foldl_nil]

/-- C9 amended: import expansion processes imports in source order; a
`ScopedName` import contributes its single short name; a `ModuleName` import
of a module held by the resolver contributes one entry per decl of the
stored module, qualified by the stored module's own name field (equal to
the import name whenever key and stored name agree), and contributes nothing
when the module is not held; a later entry overwrites an earlier one on the
same short identifier. -/
theorem c9_expanded_imports (modules : List (ModuleName × Module1))
    (m : Module0) (is : List Import) (i : Import) (k : Ident) :
    lookupS k (getExpandedImports modules { m with imports := is ++ [i] }) =
      (match i with
       | .scopedName sn =>
         if k = sn.name then some sn
         else lookupS k (getExpandedImports modules { m with imports := is })
       | .moduleName mn =>
         match lookupS mn modules with
         | some m1 =>
           if k ∈ m1.decls.map Prod.fst then some ⟨m1.name, k⟩
           else lookupS k (getExpandedImports modules { m with imports := is })
         | none =>
           lookupS k (getExpandedImports modules { m with imports := is })) := by
  rw [getExpandedImports_append]
  cases i with
  | scopedName sn =>
    by_cases hk : k = sn.name
    · subst hk
      simp [lookupS_insertS_self ltLaws_string]
    · simp only
      rw [lookupS_insertS_ne ltLaws_string hk, if_neg hk]
  | moduleName mn =>
    cases hm : lookupS mn modules with
    | none => simp [hm]
    | some m1 =>
      simp only [hm]
      rw [declsFold_lookup]

/-- One unfolding step of `add_module_impl` for module `P` of the cycle:
the checks pass (nothing resolved, fresh in-progress set), the loader
returns `P`, and the loop over the references `Q` and `sys.annotations`
runs first. -/
theorem implP_unfold (n : Nat) :
    addModuleImpl loaderPQ (n + 1) ⟨[]⟩ [] ("P") =
      (match addModuleList loaderPQ n ⟨[]⟩ ["Q", "sys.annotations"] with
       | none => none
       | some (.error e) => some (.error e)
       | some (.ok res') => contP res') := rfl

/-- One unfolding step of `add_module_impl` for module `Q` of the cycle. -/
theorem implQ_unfold (n : Nat) :
    addModuleImpl loaderPQ (n + 1) ⟨[]⟩ [] ("Q") =
      (match addModuleList loaderPQ n ⟨[]⟩ ["P", "sys.annotations"] with
       | none => none
       | some (.error e) => some (.error e)
       | some (.ok res') => contQ res') := rfl

/-- One unfolding step of the reference loop starting at `Q`: the recursive
call goes through the public entry point, with a fresh in-progress set. -/
theorem listQ_unfold (m : Nat) (res : Resolver) :
    addModuleList loaderPQ (m + 1) res ["Q", "sys.annotations"] =
      (match addModuleImpl loaderPQ m res [] ("Q") with
       | none => none
       | some (.error e) => some (.error e)
       | some (.ok res') => addModuleList loaderPQ m res' ["sys.annotations"]) :=
  rfl

/-- One unfolding step of the reference loop starting at `P`. -/
theorem listP_unfold (m : Nat) (res : Resolver) :
    addModuleList loaderPQ (m + 1) res ["P", "sys.annotations"] =
      (match addModuleImpl loaderPQ m res [] ("P") with
       | none => none
       | some (.error e) => some (.error e)
       | some (.ok res') => addModuleList loaderPQ m res' ["sys.annotations"]) :=
  rfl

/-- On the two-module import cycle, `add_module_impl` runs out of any
amount of fuel for both entry points: the recursion never terminates. -/
theorem cycle_impl_none : ∀ n, addModuleImpl loaderPQ n ⟨[]⟩ [] ("P") = none ∧
    addModuleImpl loaderPQ n ⟨[]⟩ [] ("Q") = none := by
  intro n
  induction n using Nat.strong_induction_on with
  | _ n ih =>
    match n with
    | 0 => exact ⟨rfl, rfl⟩
    | n + 1 =>
      constructor
      · rw [implP_unfold n]
        cases n with
        | zero => rfl
        | succ m =>
          have hQ := (ih m (by omega)).2
          rw [listQ_unfold m ⟨[]⟩, hQ]
      · rw [implQ_unfold n]
        cases n with
        | zero => rfl
        | succ m =>
          have hP := (ih m (by omega)).1
          rw [listP_unfold m ⟨[]⟩, hP]

/-- C1: on a loader where `P` imports `Q` and `Q` imports `P`, `add_module`
never returns at all — for every fuel bound the recursion is still running.
The in-progress set is reset by the dependency loop's call to the public
`add_module` (resolver.rs line 70), so the `CircularModules` check of line
55 can never fire, and neither module is ever inserted; the spec's promised
`CircularModules(P)` failure is unreachable.  This contradicts the
specification, which this theorem documents as a defect of the code. -/
theorem c1_cycle_diverges :
    ∀ fuel, addModule loaderPQ fuel ⟨[]⟩ ("P") = none := by
  intro fuel
  exact (cycle_impl_none fuel).1

/-- C2 counterexample: after a successful `add_module`, the resolver holds a
module `A` whose field type reference is `ScopedName(M.NotThere)`, while the
held module `M` does not declare `NotThere`: the scoped-name import
`import M.NotThere` was inserted into the expanded imports with no check
that the declaration exists. -/
theorem c2_counterexample :
    addModule loaderA 10 ⟨[]⟩ ("A") = some (.ok resolvedA) ∧
    (getModule resolvedA ("A")).map
        (fun m1 => (moduleTypeRefs m1).contains
          (TypeRef.scopedName ⟨"M", "NotThere"⟩)) = some true ∧
    (getModule resolvedA ("M")).map
        (fun mM => containsS ("NotThere") mM.decls) = some false :=
  ⟨rfl, rfl, rfl⟩

/-!  The module-existence invariant of the driver (amended C2). -/

theorem containsS_insertS {K V : Type} [DecidableEq K] [LtKey K]
    (hL : LtLaws K) (k k' : K) (v : V) (l : List (K × V)) :
    containsS k (insertS k' v l) =
      (if k = k' then true else containsS k l) := by
  by_cases h : k = k'
  · subst h
    simp [containsS, lookupS_insertS_self hL]
  · simp [containsS, lookupS_insertS_ne hL h, h]

theorem subRes_refl (a : List (ModuleName × Module1)) : SubRes a a :=
  fun _ h => h

theorem subRes_trans {a b c : List (ModuleName × Module1)}
    (h1 : SubRes a b) (h2 : SubRes b c) : SubRes a c :=
  fun mn h => h2 mn (h1 mn h)

theorem subRes_insert (mn : ModuleName) (m1 : Module1)
    (l : List (ModuleName × Module1)) : SubRes l (insertS mn m1 l) := by
  intro k hk
  rw [containsS_insertS ltLaws_string]
  by_cases h : k = mn <;> simp [h, hk]

theorem addDefaultImports_name (m : Module0) :
    (addDefaultImports m).name = m.name := by
  unfold addDefaultImports
  dsimp only
  split_ifs <;> rfl

theorem resolveModule_name (ctx : ResolveCtx) (m0 : Module0) (m1 : Module1)
    (h : resolveModule ctx m0 = .ok m1) : m1.name = m0.name := by
  simp only [resolveModule] at h
  cases hd : resolveDeclList ctx m0.decls with
  | error e => rw [hd] at h; cases h
  | ok decls1 =>
    rw [hd] at h
    cases ha : resolveAnns ctx m0.anns with
    | error e => rw [ha] at h; cases h
    | ok anns1 =>
      rw [ha] at h
      cases h
      rfl

theorem insertOnce_mem (y : ModuleName) (l : List ModuleName) (x : ModuleName) :
    y ∈ insertOnce l x ↔ y ∈ l ∨ y = x := by
  unfold insertOnce
  by_cases h : x ∈ l
  · rw [if_pos h]
    constructor
    · exact fun hy => .inl hy
    · intro hy
      rcases hy with hy | hy
      · exact hy
      · rw [hy]; exact h
  · rw [if_neg h]
    simp

theorem foldl_insertOnce_mem (y : ModuleName) :
    ∀ (l : List Import) (acc : List ModuleName),
      y ∈ l.foldl (fun acc i => insertOnce acc (importRefName i)) acc ↔
        y ∈ acc ∨ ∃ i ∈ l, importRefName i = y := by
  intro l
  induction l with
  | nil => simp
  | cons i t ih =>
    intro acc
    simp only [List.foldl_cons]
    rw [ih, insertOnce_mem]
    constructor
    · rintro ((hy | hy) | ⟨i', hi', hy⟩)
      · exact .inl hy
      · exact .inr ⟨i, by simp, hy.symm⟩
      · exact .inr ⟨i', by simp [hi'], hy⟩
    · rintro (hy | ⟨i', hi', hy⟩)
      · exact .inl (.inl hy)
      · rcases List.mem_cons.mp hi' with hh | hh
        · subst hh
          exact .inl (.inr hy.symm)
        · exact .inr ⟨i', hh, hy⟩

theorem findModuleRefs_import (m : Module0) (i : Import) (hi : i ∈ m.imports) :
    importRefName i ∈ findModuleRefs m := by
  unfold findModuleRefs
  rw [foldl_insertOnce_mem]
  exact .inr ⟨i, hi, rfl⟩

/-- Where a resolved `ScopedName` type reference can come from: an entry of
the expanded-imports map, or the qualified path, which checks the module is
held. -/
theorem resolveTypeRef_scoped (ctx : ResolveCtx) (sn0 : ScopedName) (t : TypeRef)
    (h : resolveTypeRef ctx sn0 = .ok t) :
    ∀ s, t = .scopedName s →
      (∃ k, lookupS k ctx.expanded_imports = some s) ∨
      containsS s.module_name ctx.modules = true := by
  intro s hs
  subst hs
  unfold resolveTypeRef at h
  by_cases hq : sn0.module_name = ""
  · rw [if_pos hq] at h
    by_cases h1 : ctx.type_params.contains sn0.name
    · rw [if_pos h1] at h
      simp at h
    · rw [if_neg h1] at h
      cases hp : prim_from_str sn0.name with
      | some p =>
        rw [hp] at h
        simp at h
      | none =>
        rw [hp] at h
        by_cases h2 : containsS sn0.name ctx.module0.decls
        · rw [if_pos h2] at h
          simp at h
        · rw [if_neg h2] at h
          cases he : lookupS sn0.name ctx.expanded_imports with
          | some sn1 =>
            rw [he] at h
            simp only [Except.ok.injEq, TypeRef.scopedName.injEq] at h
            subst h
            exact .inl ⟨sn0.name, he⟩
          | none =>
            rw [he] at h
            cases h
  · rw [if_neg hq] at h
    cases hm : lookupS sn0.module_name ctx.modules with
    | none =>
      simp only [hm] at h
      cases h
    | some m1 =>
      simp only [hm] at h
      cases hd : lookupS sn0.name m1.decls with
      | none =>
        simp only [hd] at h
        cases h
      | some d =>
        simp only [hd] at h
        simp only [Except.ok.injEq, TypeRef.scopedName.injEq] at h
        subst h
        refine .inr ?_
        simp [containsS, hm]

mutual

/-- Scoped-name references of a resolved type expression name held modules,
provided the context's expanded imports do. -/
theorem resolveTypeExpr_scoped (ctx : ResolveCtx) (hctx : CtxOk ctx) :
    ∀ (te : TypeExpr0) (te1 : TypeExpr1), resolveTypeExpr ctx te = .ok te1 →
      ∀ s, TypeRef.scopedName s ∈ teRefs te1 →
        containsS s.module_name ctx.modules = true
  | .mk tr ps, te1, h, s, hs => by
    simp only [resolveTypeExpr] at h
    cases hr : resolveTypeRef ctx tr with
    | error e => rw [hr] at h; cases h
    | ok r =>
      rw [hr] at h
      cases hl : resolveTypeExprList ctx ps with
      | error e => rw [hl] at h; cases h
      | ok ps1 =>
        rw [hl] at h
        cases h
        simp only [teRefs, List.mem_cons] at hs
        rcases hs with hs | hs
        · rcases resolveTypeRef_scoped ctx tr r hr s hs.symm with ⟨k, hk⟩ | hc
          · exact hctx k s hk
          · exact hc
        · exact resolveTypeExprList_scoped ctx hctx ps ps1 hl s hs

/-- List version of `resolveTypeExpr_scoped`. -/
theorem resolveTypeExprList_scoped (ctx : ResolveCtx) (hctx : CtxOk ctx) :
    ∀ (tes : List TypeExpr0) (tes1 : List TypeExpr1),
      resolveTypeExprList ctx tes = .ok tes1 →
      ∀ s, TypeRef.scopedName s ∈ teRefsList tes1 →
        containsS s.module_name ctx.modules = true
  | [], tes1, h, s, hs => by
    simp only [resolveTypeExprList] at h
    cases h
    simp [teRefsList] at hs
  | te :: tes, tes1, h, s, hs => by
    simp only [resolveTypeExprList] at h
    cases hte : resolveTypeExpr ctx te with
    | error e => rw [hte] at h; cases h
    | ok te1 =>
      rw [hte] at h
      cases htes : resolveTypeExprList ctx tes with
      | error e => rw [htes] at h; cases h
      | ok tes1' =>
        rw [htes] at h
        cases h
        simp only [teRefsList, List.mem_append] at hs
        rcases hs with hs | hs
        · exact resolveTypeExpr_scoped ctx hctx te te1 hte s hs
        · exact resolveTypeExprList_scoped ctx hctx tes tes1' htes s hs

end

/-- Membership in a fold of appended contributions. -/
theorem mem_foldr_append {α β : Type} (f : α → List β) :
    ∀ (l : List α) (b : β),
      (b ∈ l.foldr (fun a acc => f a ++ acc) []) ↔ ∃ a ∈ l, b ∈ f a := by
  intro l
  induction l with
  | nil => simp
  | cons a t ih =>
    intro b
    simp [ih]

/-- Inversion of a resolved field's type expression. -/
theorem resolveField_typeExpr (c : ResolveCtx) (f0 : Field TypeExpr0)
    (f1 : Field TypeExpr1) (h : resolveField c f0 = .ok f1) :
    resolveTypeExpr c f0.type_expr = .ok f1.type_expr := by
  simp only [resolveField] at h
  cases hte : resolveTypeExpr c f0.type_expr with
  | error e => rw [hte] at h; cases h
  | ok te1 =>
    rw [hte] at h
    cases ha : resolveAnns c f0.anns with
    | error e => rw [ha] at h; cases h
    | ok anns1 =>
      rw [ha] at h
      cases h
      rfl

theorem forall2_mem_right {α β : Type} {R : α → β → Prop} :
    ∀ {l : List α} {l' : List β}, List.Forall₂ R l l' →
      ∀ b ∈ l', ∃ a ∈ l, R a b := by
  intro l l' hf
  induction hf with
  | nil => simp
  | cons hr _ ih =>
    intro b hb
    rcases List.mem_cons.mp hb with hb | hb
    · subst hb
      exact ⟨_, by simp, hr⟩
    · obtain ⟨a, ha, har⟩ := ih b hb
      exact ⟨a, by simp [ha], har⟩

/-- The context used for a decl body keeps the resolver view and import map
of the incoming context. -/
theorem withTypeParams_ctxOk (ctx : ResolveCtx) (tps : List Ident)
    (hctx : CtxOk ctx) : CtxOk (withTypeParams ctx tps) := hctx

/-- Scoped-name references of a resolved decl body name held modules. -/
theorem resolveDecl_scoped (ctx : ResolveCtx) (hctx : CtxOk ctx)
    (d : Decl0) (d1 : Decl1) (h : resolveDecl ctx d = .ok d1) :
    ∀ s, TypeRef.scopedName s ∈ declTypeRefs d1.type_ →
      containsS s.module_name ctx.modules = true := by
  intro s hs
  simp only [resolveDecl] at h
  cases hd : d.type_ with
  | struct_ st =>
    simp only [hd] at h
    cases hb : resolveStruct ctx st with
    | error e => rw [hb] at h; cases h
    | ok dtype =>
      rw [hb] at h
      cases ha : resolveAnns ctx d.anns with
      | error e => rw [ha] at h; cases h
      | ok anns1 =>
        rw [ha] at h
        cases h
        simp only [resolveStruct] at hb
        cases hf : resolveFields (withTypeParams ctx st.type_params) st.fields with
        | error e => rw [hf] at hb; cases hb
        | ok fields1 =>
          rw [hf] at hb
          cases hb
          simp only [declTypeRefs] at hs
          obtain ⟨f1, hf1, hsf⟩ :=
            (mem_foldr_append (fun f : Field TypeExpr1 => teRefs f.type_expr)
              fields1 _).mp hs
          obtain ⟨f0, _, hff⟩ :=
            forall2_mem_right (resolveFields_forall2 _ _ _ hf) f1 hf1
          exact resolveTypeExpr_scoped _ (withTypeParams_ctxOk ctx _ hctx)
            f0.type_expr f1.type_expr (resolveField_typeExpr _ _ _ hff) s hsf
  | union_ un =>
    simp only [hd] at h
    cases hb : resolveUnion ctx un with
    | error e => rw [hb] at h; cases h
    | ok dtype =>
      rw [hb] at h
      cases ha : resolveAnns ctx d.anns with
      | error e => rw [ha] at h; cases h
      | ok anns1 =>
        rw [ha] at h
        cases h
        simp only [resolveUnion] at hb
        cases hf : resolveFields (withTypeParams ctx un.type_params) un.fields with
        | error e => rw [hf] at hb; cases hb
        | ok fields1 =>
          rw [hf] at hb
          cases hb
          simp only [declTypeRefs] at hs
          obtain ⟨f1, hf1, hsf⟩ :=
            (mem_foldr_append (fun f : Field TypeExpr1 => teRefs f.type_expr)
              fields1 _).mp hs
          obtain ⟨f0, _, hff⟩ :=
            forall2_mem_right (resolveFields_forall2 _ _ _ hf) f1 hf1
          exact resolveTypeExpr_scoped _ (withTypeParams_ctxOk ctx _ hctx)
            f0.type_expr f1.type_expr (resolveField_typeExpr _ _ _ hff) s hsf
  | type_ ty =>
    simp only [hd] at h
    cases hb : resolveTypeAlias ctx ty with
    | error e => rw [hb] at h; cases h
    | ok dtype =>
      rw [hb] at h
      cases ha : resolveAnns ctx d.anns with
      | error e => rw [ha] at h; cases h
      | ok anns1 =>
        rw [ha] at h
        cases h
        simp only [resolveTypeAlias] at hb
        cases hte : resolveTypeExpr (withTypeParams ctx ty.type_params) ty.type_expr with
        | error e => rw [hte] at hb; cases hb
        | ok te1 =>
          rw [hte] at hb
          cases hb
          simp only [declTypeRefs] at hs
          exact resolveTypeExpr_scoped _ (withTypeParams_ctxOk ctx _ hctx)
            ty.type_expr te1 hte s hs
  | newtype nt =>
    simp only [hd] at h
    cases hb : resolveNewtype ctx nt with
    | error e => rw [hb] at h; cases h
    | ok dtype =>
      rw [hb] at h
      cases ha : resolveAnns ctx d.anns with
      | error e => rw [ha] at h; cases h
      | ok anns1 =>
        rw [ha] at h
        cases h
        simp only [resolveNewtype] at hb
        cases hte : resolveTypeExpr (withTypeParams ctx nt.type_params) nt.type_expr with
        | error e => rw [hte] at hb; cases hb
        | ok te1 =>
          rw [hte] at hb
          cases hb
          simp only [declTypeRefs] at hs
          exact resolveTypeExpr_scoped _ (withTypeParams_ctxOk ctx _ hctx)
            nt.type_expr te1 hte s hs

/-- Elementwise inversion of the decl-map resolution. -/
theorem resolveDeclList_forall2 (ctx : ResolveCtx) :
    ∀ l l1, resolveDeclList ctx l = .ok l1 →
      List.Forall₂ (fun (kv : Ident × Decl0) (kv1 : Ident × Decl1) =>
        resolveDecl ctx kv.2 = .ok kv1.2) l l1 := by
  intro l
  induction l with
  | nil =>
    intro l1 h
    simp only [resolveDeclList] at h
    cases h
    exact List.Forall₂.nil
  | cons kv t ih =>
    intro l1 h
    obtain ⟨n, d0⟩ := kv
    simp only [resolveDeclList] at h
    cases hd : resolveDecl ctx d0 with
    | error e => rw [hd] at h; cases h
    | ok d1 =>
      rw [hd] at h
      cases ht : resolveDeclList ctx t with
      | error e => rw [ht] at h; cases h
      | ok t1 =>
        rw [ht] at h
        cases h
        exact List.Forall₂.cons hd (ih t1 ht)

/-- Scoped-name references of a resolved module name held modules. -/
theorem resolveModule_scoped (ctx : ResolveCtx) (hctx : CtxOk ctx)
    (m0 : Module0) (m1 : Module1) (h : resolveModule ctx m0 = .ok m1) :
    ∀ s, TypeRef.scopedName s ∈ moduleTypeRefs m1 →
      containsS s.module_name ctx.modules = true := by
  intro s hs
  simp only [resolveModule] at h
  cases hd : resolveDeclList ctx m0.decls with
  | error e => rw [hd] at h; cases h
  | ok decls1 =>
    rw [hd] at h
    cases ha : resolveAnns ctx m0.anns with
    | error e => rw [ha] at h; cases h
    | ok anns1 =>
      rw [ha] at h
      cases h
      simp only [moduleTypeRefs] at hs
      obtain ⟨kv1, hkv1, hskv⟩ :=
        (mem_foldr_append (fun kv : Ident × Decl1 => declTypeRefs kv.2.type_)
          decls1 _).mp hs
      obtain ⟨kv0, _, hkv⟩ :=
        forall2_mem_right (resolveDeclList_forall2 _ _ _ hd) kv1 hkv1
      exact resolveDecl_scoped ctx hctx kv0.2 kv1.2 hkv s hskv

/-- Every value of the expanded-import map names a held module, provided the
map keys are name-consistent and every scoped-name import's qualifier is
held. -/
theorem getExpandedImports_values (modules : List (ModuleName × Module1)) :
    ∀ (il : List Import),
      (∀ mn m1, lookupS mn modules = some m1 → m1.name = mn) →
      (∀ sn, Import.scopedName sn ∈ il →
        containsS sn.module_name modules = true) →
      ∀ (acc : List (Ident × ScopedName)),
        (∀ k s, lookupS k acc = some s →
          containsS s.module_name modules = true) →
        ∀ k s, lookupS k (il.foldl (fun result i =>
            match i with
            | .scopedName sn => insertS sn.name sn result
            | .moduleName mn =>
              match lookupS mn modules with
              | some m =>
                m.decls.foldl (fun a kv =>
                  insertS kv.1 { module_name := m.name, name := kv.1 } a) result
              | none => result) acc) = some s →
          containsS s.module_name modules = true := by
  intro il
  induction il with
  | nil =>
    intro _ _ acc hacc k s hk
    exact hacc k s hk
  | cons i t ih =>
    intro hname himp acc hacc k s hk
    simp only [List.foldl_cons] at hk
    refine ih hname (fun sn hsn => himp sn (by simp [hsn])) _ ?_ k s hk
    intro k' s' hk'
    cases i with
    | scopedName sn =>
      simp only at hk'
      by_cases hks : k' = sn.name
      · subst hks
        rw [lookupS_insertS_self ltLaws_string] at hk'
        cases hk'
        exact himp s' (by simp)
      · rw [lookupS_insertS_ne ltLaws_string hks] at hk'
        exact hacc k' s' hk'
    | moduleName mn =>
      simp only at hk'
      cases hm : lookupS mn modules with
      | none =>
        rw [hm] at hk'
        exact hacc k' s' hk'
      | some m1 =>
        rw [hm] at hk'
        rw [declsFold_lookup] at hk'
        by_cases hmem : k' ∈ m1.decls.map Prod.fst
        · rw [if_pos hmem] at hk'
          cases hk'
          have : m1.name = mn := hname mn m1 hm
          simp only [this]
          simp [containsS, hm]
        · rw [if_neg hmem] at hk'
          exact hacc k' s' hk'

/-- The invariants survive resolving and inserting one module. -/
theorem resolveAndInsert_inv (st : Resolver) (mn : ModuleName) (m0' : Module0)
    (hnc : NameCons st.modules) (hmi : ModInv st.modules)
    (himp : ∀ sn, Import.scopedName sn ∈ m0'.imports →
      containsS sn.module_name st.modules = true)
    (hmname : m0'.name = mn) (st' : Resolver)
    (h : resolveAndInsert st mn m0' = some (.ok st')) :
    SubRes st.modules st'.modules ∧ NameCons st'.modules ∧
      ModInv st'.modules ∧ containsS mn st'.modules = true := by
  simp only [resolveAndInsert] at h
  cases hres : resolveModule
      { modules := st.modules, module0 := m0',
        expanded_imports := getExpandedImports st.modules m0',
        type_params := [] } m0' with
  | error e =>
    simp only [hres] at h
    cases h
  | ok m1 =>
    simp only [hres] at h
    cases h
    have hctx : CtxOk
        { modules := st.modules, module0 := m0',
          expanded_imports := getExpandedImports st.modules m0',
          type_params := [] } := by
      intro k s hk
      exact getExpandedImports_values st.modules m0'.imports hnc himp []
        (by intro k' s' hk'; cases hk') k s hk
    have hscoped : ScopedOk st.modules m1 :=
      fun sn hsn => resolveModule_scoped _ hctx m0' m1 hres sn hsn
    have hname1 : m1.name = mn := (resolveModule_name _ _ _ hres).trans hmname
    refine ⟨subRes_insert mn m1 st.modules, ?_, ?_, ?_⟩
    · intro k mk hk
      by_cases hkmn : k = mn
      · subst hkmn
        rw [lookupS_insertS_self ltLaws_string] at hk
        cases hk
        exact hname1
      · rw [lookupS_insertS_ne ltLaws_string hkmn] at hk
        exact hnc k mk hk
    · intro k mk hk
      by_cases hkmn : k = mn
      · subst hkmn
        rw [lookupS_insertS_self ltLaws_string] at hk
        cases hk
        exact fun sn hsn => subRes_insert _ _ _ _ (hscoped sn hsn)
      · rw [lookupS_insertS_ne ltLaws_string hkmn] at hk
        exact fun sn hsn => subRes_insert _ _ _ _ (hmi k mk hk sn hsn)
    · rw [containsS_insertS ltLaws_string]
      simp

/-- The invariants survive the driver: any successful `add_module_impl` run
from an invariant-satisfying state yields an invariant-satisfying state that
extends it and holds the requested module (paired with the statement for the
reference loop). -/
theorem addModule_inv (loader : Loader)
    (hname : ∀ mn m0, loader mn = .ok (some m0) → m0.name = mn) :
    ∀ fuel,
      (∀ st ip mn st', addModuleImpl loader fuel st ip mn = some (.ok st') →
        NameCons st.modules → ModInv st.modules →
        SubRes st.modules st'.modules ∧ NameCons st'.modules ∧
          ModInv st'.modules ∧ containsS mn st'.modules = true) ∧
      (∀ st refs st', addModuleList loader fuel st refs = some (.ok st') →
        NameCons st.modules → ModInv st.modules →
        SubRes st.modules st'.modules ∧ NameCons st'.modules ∧
          ModInv st'.modules ∧ ∀ r ∈ refs, containsS r st'.modules = true) := by
  intro fuel
  induction fuel with
  | zero =>
    constructor
    · intro st ip mn st' h
      simp only [addModuleImpl] at h
      cases h
    · intro st refs st' h
      simp only [addModuleList] at h
      cases h
  | succ fuel ih =>
    obtain ⟨ihI, ihL⟩ := ih
    constructor
    · intro st ip mn st' h hnc hmi
      simp only [addModuleImpl] at h
      by_cases hc : containsS mn st.modules = true
      · rw [if_pos hc] at h
        cases h
        exact ⟨subRes_refl _, hnc, hmi, hc⟩
      · rw [if_neg hc] at h
        by_cases hip : mn ∈ ip
        · rw [if_pos hip] at h
          cases h
        · rw [if_neg hip] at h
          cases hload : loader mn with
          | error e =>
            simp only [hload] at h
            cases h
          | ok om =>
            cases om with
            | none =>
              simp only [hload] at h
              cases h
            | some m0 =>
              simp only [hload] at h
              cases hlist : addModuleList loader fuel st
                  (findModuleRefs (addDefaultImports m0)) with
              | none =>
                simp only [hlist] at h
                cases h
              | some r =>
                cases r with
                | error e =>
                  simp only [hlist] at h
                  cases h
                | ok st'' =>
                  simp only [hlist] at h
                  obtain ⟨hsub, hnc2, hmi2, hrefs⟩ :=
                    ihL st _ st'' hlist hnc hmi
                  have himp : ∀ sn,
                      Import.scopedName sn ∈ (addDefaultImports m0).imports →
                      containsS sn.module_name st''.modules = true := by
                    intro sn hsn
                    exact hrefs _ (findModuleRefs_import _ _ hsn)
                  have hmname : (addDefaultImports m0).name = mn := by
                    rw [addDefaultImports_name]
                    exact hname mn m0 hload
                  obtain ⟨hsub2, hnc3, hmi3, hcont⟩ :=
                    resolveAndInsert_inv st'' mn (addDefaultImports m0)
                      hnc2 hmi2 himp hmname st' h
                  exact ⟨subRes_trans hsub hsub2, hnc3, hmi3, hcont⟩
    · intro st refs st' h hnc hmi
      cases refs with
      | nil =>
        simp only [addModuleList] at h
        cases h
        exact ⟨subRes_refl _, hnc, hmi, by simp⟩
      | cons r rs =>
        simp only [addModuleList] at h
        cases himpl : addModuleImpl loader fuel st [] r with
        | none =>
          simp only [himpl] at h
          cases h
        | some res =>
          cases res with
          | error e =>
            simp only [himpl] at h
            cases h
          | ok st1 =>
            simp only [himpl] at h
            obtain ⟨hsub1, hnc1, hmi1, hcontr⟩ := ihI st [] r st1 himpl hnc hmi
            obtain ⟨hsub2, hnc2, hmi2, hall⟩ := ihL st1 rs st' h hnc1 hmi1
            refine ⟨subRes_trans hsub1 hsub2, hnc2, hmi2, ?_⟩
            intro r' hr'
            rcases List.mem_cons.mp hr' with hh | hh
            · subst hh
              exact hsub2 r' hcontr
            · exact hall r' hh

/-- C2 amended: for a name-consistent loader (every loaded module records
the requested name), after a successful `add_module` from an empty resolver,
every `ScopedName` type reference occurring in any held module names a
module held by the resolver.  Containment of the referenced decl name is NOT
guaranteed for names introduced by a scoped-name import, which the code
never verifies (see the counterexample). -/
theorem c2_scoped_module_exists (loader : Loader)
    (hname : ∀ mn m0, loader mn = .ok (some m0) → m0.name = mn)
    (fuel : Nat) (mn : ModuleName) (st' : Resolver)
    (h : addModule loader fuel ⟨[]⟩ mn = some (.ok st')) :
    ∀ mn1 m1, getModule st' mn1 = some m1 →
      ∀ s, TypeRef.scopedName s ∈ moduleTypeRefs m1 →
        (getModule st' s.module_name).isSome = true := by
  intro mn1 m1 hm s hs
  have h0nc : NameCons ([] : List (ModuleName × Module1)) := by
    intro mn2 m2 h2
    cases h2
  have h0mi : ModInv ([] : List (ModuleName × Module1)) := by
    intro mn2 m2 h2
    cases h2
  obtain ⟨_, _, hmi, _⟩ :=
    (addModule_inv loader hname fuel).1 ⟨[]⟩ [] mn st' h h0nc h0mi
  exact hmi mn1 m1 hm s hs

/-- Witness for the amended C2: in the concrete run that publishes module
`A` with the unverified reference `M.NotThere`, the referenced module `M` is
nevertheless held by the resolver. -/
theorem c2_scoped_module_exists_witness :
    (getModule resolvedA ("M")).isSome = true := by
  refine c2_scoped_module_exists loaderA ?_ 10 ("A") resolvedA rfl
    ("A") resolvedAmod rfl ⟨"M", "NotThere"⟩ (by decide)
  intro mn m0 hl
  unfold loaderA at hl
  split_ifs at hl with h1 h2 h3 <;> cases hl <;>
    first
      | (rw [h1]; rfl)
      | (rw [h2]; rfl)
      | (rw [h3]; rfl)

end Adl
